import Mathlib

/-!
Verification of the Firestore camera cleanup + hotspot worker.

The development shallowly embeds the complete draft of the job
(`cleanup.js`, second revision: the "preserve docs for hotspot window,
hide from app on expiry" patch, which is the policy the design document
adopts).  JavaScript dynamic values are modelled by `TVal` (number /
string / NaN / missing) with explicit truthiness and `Number(...)`
coercion; machine time is `Int` epoch milliseconds.  The great-circle
distance function (`geolib.getDistance`) and the rounded-coordinate
summary key (`Number(x).toFixed(4)` concatenation) are numeric
leaf utilities external to all control flow, so the batch pass is
parametrised over them (`Dist`, `GridKey`); theorems either hold for
every such function or instantiate them concretely.
-/

namespace Cleanup

/-- A loosely-typed JavaScript field value: a (model-integer) number, a
string, the number `NaN`, or an absent field (`undefined`). -/
inductive TVal where
  | num (n : Int)
  | str (s : String)
  | nan
  | missing
deriving DecidableEq, Repr

/-- JavaScript truthiness: `0`, `""`, `NaN` and `undefined` are falsy. -/
def TVal.truthy : TVal → Bool
  | .num n => n != 0
  | .str s => s != ""
  | .nan => false
  | .missing => false

/-- The numeric value of a decimal digit character, if it is one. -/
def digitVal (c : Char) : Option Nat :=
  if '0' ≤ c ∧ c ≤ '9' then some (c.toNat - '0'.toNat) else none

/-- Accumulate a decimal digit string. -/
def parseDigitsAux : List Char → Nat → Option Nat
  | [], acc => some acc
  | c :: t, acc =>
    match digitVal c with
    | some d => parseDigitsAux t (acc * 10 + d)
    | none => none

/-- Parse a nonempty all-digit character list. -/
def parseDigits : List Char → Option Nat
  | [] => none
  | c :: t => parseDigitsAux (c :: t) 0

/-- `Number(s)` on a string, restricted to integer literals: the empty
string is `0`, decimal integer strings (with optional leading minus)
parse, anything else is `NaN` (`none`). -/
def strToNumber (s : String) : Option Int :=
  if s = "" then some 0
  else
    match s.toList with
    | '-' :: rest => (parseDigits rest).map (fun n => -(n : Int))
    | l => (parseDigits l).map (fun n => (n : Int))

/-- `p` is a prefix of `l` (character lists). -/
def listIsPrefix : List Char → List Char → Bool
  | [], _ => true
  | _ :: _, [] => false
  | a :: p, b :: l => a == b && listIsPrefix p l

/-- `s.startsWith p`. -/
def strStartsWith (s p : String) : Bool := listIsPrefix p.toList s.toList

/-- `Number(v)`; `none` stands for `NaN`. -/
def TVal.toNumber : TVal → Option Int
  | .num n => some n
  | .str s => strToNumber s
  | .nan => none
  | .missing => none

/-- JavaScript `v || fallback`. -/
def jsOr (v fallback : TVal) : TVal := if v.truthy then v else fallback

/-- JavaScript `Number(v) || fallback` (both `0` and `NaN` select the
fallback). -/
def numOr (v : TVal) (fallback : Int) : Int :=
  match v.toNumber with
  | some n => if n = 0 then fallback else n
  | none => fallback

/-- JavaScript `v || fallback` for a numeric-or-absent field read as a
number (used for `nd.confidence || 70`). -/
def jsOrInt (v : Option Int) (fallback : Int) : Int :=
  match v with
  | some n => if n = 0 then fallback else n
  | none => fallback

/-- `a <= b` where `a` may be `NaN` (every comparison with `NaN` is
false). -/
def jsLE (a : Option Int) (b : Int) : Bool :=
  match a with
  | some n => decide (n ≤ b)
  | none => false

/-- `a < b` where `a` may be `NaN`. -/
def jsLT (a : Option Int) (b : Int) : Bool :=
  match a with
  | some n => decide (n < b)
  | none => false

/-- `a >= b` where `a` may be `NaN`. -/
def jsGE (a : Option Int) (b : Int) : Bool :=
  match a with
  | some n => decide (b ≤ n)
  | none => false

/-- `Math.max(a, b)` after JS number coercion (`NaN` absorbs). -/
def mathMax (a b : TVal) : TVal :=
  match a.toNumber, b.toNumber with
  | some x, some y => .num (max x y)
  | _, _ => .nan

/-- One camera document's data, as the worker reads and mutates it.
`confidence` is modelled as numeric-or-absent; `hotspot`, `removed` and
`removedByWorker` as booleans (absent and `false` are indistinguishable
to the worker, which only tests their truthiness). -/
structure CamData where
  type : Option String := none
  lat : TVal := .missing
  lon : TVal := .missing
  timestamp : TVal := .missing
  count : TVal := .missing
  confidence : Option Int := none
  hotspot : Bool := false
  expiresAt : TVal := .missing
  removed : Bool := false
  removedByWorker : Bool := false
  lastSeen : TVal := .missing
deriving DecidableEq, Repr

/-- Configuration constants of the job (second revision). -/
def MS_HOUR : Int := 1000 * 60 * 60

def MS_DAY : Int := 1000 * 60 * 60 * 24

def MOBILE_EXPIRE_HOURS : Int := 10

def OTHER_EXPIRE_HOURS : Int := 10

def FIXED_REMOVE_THRESHOLD : Int := -3

def HOTSPOT_RADIUS_M : Nat := 200

def HOTSPOT_WINDOW_DAYS : Int := 10

def HOTSPOT_THRESHOLD : Nat := 3

def PRESERVE_HOTSPOT_DAYS : Int := 10

/-- `d.type || 'mobile_camera'`. -/
def effType (d : CamData) : String :=
  match d.type with
  | some s => if s = "" then "mobile_camera" else s
  | none => "mobile_camera"

/-- `(typeof d.count === 'number') ? d.count : Number(d.count || 0)`;
`none` is `NaN` (note `typeof NaN === 'number'`). -/
def effCount : TVal → Option Int
  | .num n => some n
  | .nan => none
  | .str s => (jsOr (.str s) (.num 0)).toNumber
  | .missing => (jsOr .missing (.num 0)).toNumber

/-- The store mutations the worker issues, one constructor per call
site: the four normalization field writes, the fixed-camera hotspot
write, the hide write (`removed`, `removedByWorker`, `lastSeen`), the
physical delete, the hotspot TTL extension, the cluster promotion
update, and the summary upsert. -/
inductive Mut where
  | setTimestamp (id : String) (v : Int)
  | setConfidence (id : String) (v : Int)
  | setHotspotTrue (id : String)
  | markRemoved (id : String) (lastSeen : Int)
  | setExpiresAt (id : String) (v : Int)
  | setLastSeen (id : String) (v : TVal)
  | deleteDoc (id : String)
  | extendHotspot (id : String) (expiresAt lastSeen : Int)
  | promote (id : String) (confidence : Int) (expiresAt : Int) (lastSeen : TVal)
  | upsertSummary (key : String) (lat lon : Option Int) (reportCount : Nat)
      (lastReported : Option Int) (confidence : ℚ) (updatedAt : Int)
deriving DecidableEq, Repr

/-- `if (!d.timestamp) update({ timestamp: now })`. -/
def normTimestamp (now : Int) (id : String) (d : CamData) : CamData × List Mut :=
  if d.timestamp.truthy then (d, [])
  else ({ d with timestamp := .num now }, [.setTimestamp id now])

/-- `if (d.confidence === undefined || d.confidence === null) update({ confidence: conf })`. -/
def normConfidence (ty : String) (id : String) (d : CamData) : CamData × List Mut :=
  if d.confidence = none then
    let c : Int := if ty = "fixed_camera" then 100 else 70
    ({ d with confidence := some c }, [.setConfidence id c])
  else (d, [])

/-- The fixed-camera branch: ensure `hotspot`, then mark removed when
`count <= FIXED_REMOVE_THRESHOLD && !d.removed`; never delete. -/
def fixedTail (now : Int) (id : String) (d : CamData) : CamData × List Mut :=
  let p :=
    if d.hotspot then (d, ([] : List Mut))
    else ({ d with hotspot := true }, [.setHotspotTrue id])
  let d1 := p.1
  if jsLE (effCount d1.count) FIXED_REMOVE_THRESHOLD && !d1.removed then
    ({ d1 with removed := true, removedByWorker := true, lastSeen := .num now },
     p.2 ++ [.markRemoved id now])
  else (d1, p.2)

/-- `if (!d.expiresAt) update({ expiresAt: (Number(d.timestamp) || now) + lifetimeHours * MS.HOUR })`. -/
def normExpires (now : Int) (ty : String) (id : String) (d : CamData) : CamData × List Mut :=
  if d.expiresAt.truthy then (d, [])
  else
    let lifetimeHours : Int := if ty = "other" then OTHER_EXPIRE_HOURS else MOBILE_EXPIRE_HOURS
    let e := numOr d.timestamp now + lifetimeHours * MS_HOUR
    ({ d with expiresAt := .num e }, [.setExpiresAt id e])

/-- `if (!d.lastSeen) update({ lastSeen: d.timestamp || now })`. -/
def normLastSeen (now : Int) (id : String) (d : CamData) : CamData × List Mut :=
  if d.lastSeen.truthy then (d, [])
  else
    let v := jsOr d.timestamp (.num now)
    ({ d with lastSeen := v }, [.setLastSeen id v])

/-- Shared tail of the count and expiry branches: delete when the
record predates the hotspot window, otherwise mark it removed (once). -/
def hideOrDelete (now cutoff : Int) (id : String) (d : CamData) :
    CamData × Bool × List Mut :=
  let ts : Int := (d.timestamp.toNumber).getD 0
  if ts < cutoff then (d, true, [.deleteDoc id])
  else if !d.removed then
    ({ d with removed := true, removedByWorker := true, lastSeen := .num now },
     false, [.markRemoved id now])
  else (d, false, [])

/-- The mobile/other decision tail (`PATCH` block of the second
revision): count test first, then the expiry test with hotspot
extension. -/
def mobileTail (now cutoff : Int) (id : String) (d : CamData) :
    CamData × Bool × List Mut :=
  if !d.hotspot && jsLE (effCount d.count) 0 then
    hideOrDelete now cutoff id d
  else if d.expiresAt.truthy && jsLT d.expiresAt.toNumber now then
    if !d.hotspot then hideOrDelete now cutoff id d
    else
      let pu := now + PRESERVE_HOTSPOT_DAYS * MS_DAY
      ({ d with expiresAt := .num pu, lastSeen := .num now },
       false, [.extendHotspot id pu now])
  else (d, false, [])

/-- The two normalization writes applied to every document (timestamp,
then confidence), composed in source order. -/
def norm2 (now : Int) (ty : String) (id : String) (d : CamData) : CamData × List Mut :=
  let p1 := normTimestamp now id d
  let p2 := normConfidence ty id p1.1
  (p2.1, p1.2 ++ p2.2)

/-- The four normalization writes applied to mobile/other documents
(timestamp, confidence, expiresAt, lastSeen), composed in source
order. -/
def norm4 (now : Int) (ty : String) (id : String) (d : CamData) : CamData × List Mut :=
  let q := norm2 now ty id d
  let p3 := normExpires now ty id q.1
  let p4 := normLastSeen now id p3.1
  (p4.1, q.2 ++ p3.2 ++ p4.2)

/-- One iteration of the per-doc maintenance loop: the final in-memory
data, whether the document was physically deleted, and the mutations
written to the store, in order. -/
def lifecycleStep (now cutoff : Int) (id : String) (d0 : CamData) :
    CamData × Bool × List Mut :=
  let ty := effType d0
  if ty = "fixed_camera" then
    let q := norm2 now ty id d0
    let p3 := fixedTail now id q.1
    (p3.1, false, q.2 ++ p3.2)
  else
    let q := norm4 now ty id d0
    let p5 := mobileTail now cutoff id q.1
    (p5.1, p5.2.1, q.2 ++ p5.2.2)

section StepLemmas

variable {now cutoff : Int} {ty id : String} {d : CamData}

theorem normTimestamp_of_truthy (h : d.timestamp.truthy = true) :
    normTimestamp now id d = (d, []) := by simp [normTimestamp, h]

theorem normTimestamp_of_falsy (h : d.timestamp.truthy = false) :
    normTimestamp now id d =
      ({ d with timestamp := .num now }, [.setTimestamp id now]) := by
  simp [normTimestamp, h]

theorem normConfidence_of_some (h : d.confidence ≠ none) :
    normConfidence ty id d = (d, []) := by simp [normConfidence, h]

theorem normConfidence_of_none (h : d.confidence = none) :
    normConfidence ty id d =
      ({ d with confidence := some (if ty = "fixed_camera" then 100 else 70) },
       [.setConfidence id (if ty = "fixed_camera" then 100 else 70)]) := by
  simp [normConfidence, h]

theorem normExpires_of_truthy (h : d.expiresAt.truthy = true) :
    normExpires now ty id d = (d, []) := by simp [normExpires, h]

theorem normExpires_of_falsy (h : d.expiresAt.truthy = false) :
    normExpires now ty id d =
      ({ d with expiresAt := .num (numOr d.timestamp now +
          (if ty = "other" then OTHER_EXPIRE_HOURS else MOBILE_EXPIRE_HOURS) * MS_HOUR) },
       [.setExpiresAt id (numOr d.timestamp now +
          (if ty = "other" then OTHER_EXPIRE_HOURS else MOBILE_EXPIRE_HOURS) * MS_HOUR)]) := by
  simp [normExpires, h]

theorem normLastSeen_of_truthy (h : d.lastSeen.truthy = true) :
    normLastSeen now id d = (d, []) := by simp [normLastSeen, h]

theorem normLastSeen_of_falsy (h : d.lastSeen.truthy = false) :
    normLastSeen now id d =
      ({ d with lastSeen := jsOr d.timestamp (.num now) },
       [.setLastSeen id (jsOr d.timestamp (.num now))]) := by
  simp [normLastSeen, h]

theorem norm2_of_normalized (h1 : d.timestamp.truthy = true) (h2 : d.confidence ≠ none) :
    norm2 now ty id d = (d, []) := by
  simp [norm2, normTimestamp_of_truthy h1, normConfidence_of_some h2]

theorem norm4_of_normalized (h1 : d.timestamp.truthy = true) (h2 : d.confidence ≠ none)
    (h3 : d.expiresAt.truthy = true) (h4 : d.lastSeen.truthy = true) :
    norm4 now ty id d = (d, []) := by
  simp [norm4, norm2_of_normalized h1 h2, normExpires_of_truthy h3,
    normLastSeen_of_truthy h4]

theorem norm2_preserves :
    (norm2 now ty id d).1.type = d.type ∧ (norm2 now ty id d).1.lat = d.lat ∧
    (norm2 now ty id d).1.lon = d.lon ∧ (norm2 now ty id d).1.count = d.count ∧
    (norm2 now ty id d).1.hotspot = d.hotspot ∧
    (norm2 now ty id d).1.expiresAt = d.expiresAt ∧
    (norm2 now ty id d).1.removed = d.removed ∧
    (norm2 now ty id d).1.removedByWorker = d.removedByWorker ∧
    (norm2 now ty id d).1.lastSeen = d.lastSeen := by
  simp only [norm2, normTimestamp, normConfidence]
  split_ifs <;> simp

theorem norm4_preserves :
    (norm4 now ty id d).1.type = d.type ∧ (norm4 now ty id d).1.lat = d.lat ∧
    (norm4 now ty id d).1.lon = d.lon ∧ (norm4 now ty id d).1.count = d.count ∧
    (norm4 now ty id d).1.hotspot = d.hotspot ∧ (norm4 now ty id d).1.removed = d.removed ∧
    (norm4 now ty id d).1.removedByWorker = d.removedByWorker := by
  simp only [norm4, norm2, normTimestamp, normConfidence, normExpires, normLastSeen]
  split_ifs <;> simp

theorem norm4_timestamp :
    (norm4 now ty id d).1.timestamp =
      if d.timestamp.truthy then d.timestamp else .num now := by
  simp only [norm4, norm2, normTimestamp, normConfidence, normExpires, normLastSeen]
  split_ifs <;> simp_all

theorem lifecycleStep_fixed (h : effType d = "fixed_camera") :
    lifecycleStep now cutoff id d =
      ((fixedTail now id (norm2 now "fixed_camera" id d).1).1, false,
       (norm2 now "fixed_camera" id d).2 ++
         (fixedTail now id (norm2 now "fixed_camera" id d).1).2) := by
  simp [lifecycleStep, h]

theorem lifecycleStep_mobile (h : ¬ effType d = "fixed_camera") :
    lifecycleStep now cutoff id d =
      ((mobileTail now cutoff id (norm4 now (effType d) id d).1).1,
       (mobileTail now cutoff id (norm4 now (effType d) id d).1).2.1,
       (norm4 now (effType d) id d).2 ++
         (mobileTail now cutoff id (norm4 now (effType d) id d).1).2.2) := by
  simp [lifecycleStep, h]

theorem mobileTail_count_branch (hh : d.hotspot = false)
    (hc : jsLE (effCount d.count) 0 = true) :
    mobileTail now cutoff id d = hideOrDelete now cutoff id d := by
  simp [mobileTail, hh, hc]

theorem mobileTail_expired_nonhot (hh : d.hotspot = false)
    (hc : jsLE (effCount d.count) 0 = false)
    (he : d.expiresAt.truthy = true) (hlt : jsLT d.expiresAt.toNumber now = true) :
    mobileTail now cutoff id d = hideOrDelete now cutoff id d := by
  simp [mobileTail, hh, hc, he, hlt]

theorem mobileTail_expired_hot (hh : d.hotspot = true)
    (he : d.expiresAt.truthy = true) (hlt : jsLT d.expiresAt.toNumber now = true) :
    mobileTail now cutoff id d =
      ({ d with expiresAt := .num (now + PRESERVE_HOTSPOT_DAYS * MS_DAY),
                lastSeen := .num now },
       false, [.extendHotspot id (now + PRESERVE_HOTSPOT_DAYS * MS_DAY) now]) := by
  simp [mobileTail, hh, he, hlt]

theorem mobileTail_inactive
    (h1 : d.hotspot = true ∨ jsLE (effCount d.count) 0 = false)
    (h2 : d.expiresAt.truthy = false ∨ jsLT d.expiresAt.toNumber now = false) :
    mobileTail now cutoff id d = (d, false, []) := by
  rcases h1 with h1 | h1 <;> rcases h2 with h2 | h2 <;> simp [mobileTail, h1, h2]

theorem hideOrDelete_old (h : (d.timestamp.toNumber).getD 0 < cutoff) :
    hideOrDelete now cutoff id d = (d, true, [.deleteDoc id]) := by
  simp [hideOrDelete, h]

theorem hideOrDelete_recent_unmarked (h : ¬ (d.timestamp.toNumber).getD 0 < cutoff)
    (hr : d.removed = false) :
    hideOrDelete now cutoff id d =
      ({ d with removed := true, removedByWorker := true, lastSeen := .num now },
       false, [.markRemoved id now]) := by
  simp [hideOrDelete, h, hr]

theorem hideOrDelete_recent_marked (h : ¬ (d.timestamp.toNumber).getD 0 < cutoff)
    (hr : d.removed = true) :
    hideOrDelete now cutoff id d = (d, false, []) := by
  simp [hideOrDelete, h, hr]

theorem hideOrDelete_not_deleted_of_recent (h : ¬ (d.timestamp.toNumber).getD 0 < cutoff) :
    (hideOrDelete now cutoff id d).2.1 = false ∧
      (hideOrDelete now cutoff id d).1.removed = true := by
  cases hr : d.removed
  · simp [hideOrDelete_recent_unmarked h hr]
  · simp [hideOrDelete_recent_marked h hr, hr]

theorem norm4_expiresAt_of_truthy (h : d.expiresAt.truthy = true) :
    (norm4 now ty id d).1.expiresAt = d.expiresAt := by
  simp only [norm4, norm2, normTimestamp, normConfidence, normExpires, normLastSeen]
  split_ifs <;> simp_all

theorem norm4_lastSeen_of_truthy (h : d.lastSeen.truthy = true) :
    (norm4 now ty id d).1.lastSeen = d.lastSeen := by
  simp only [norm4, norm2, normTimestamp, normConfidence, normExpires, normLastSeen]
  split_ifs <;> simp_all

theorem fixedTail_marks
    (hcond : (jsLE (effCount d.count) FIXED_REMOVE_THRESHOLD && !d.removed) = true) :
    (fixedTail now id d).1.removed = true
    ∧ (fixedTail now id d).1.removedByWorker = true
    ∧ (fixedTail now id d).1.lastSeen = .num now := by
  cases hh : d.hotspot <;> simp [fixedTail, hh] <;> simp_all

theorem fixedTail_of_hot_quiet (hh : d.hotspot = true)
    (hcond : (jsLE (effCount d.count) FIXED_REMOVE_THRESHOLD && !d.removed) = false) :
    fixedTail now id d = (d, []) := by
  simp only [fixedTail, hh, if_true]
  simp_all

theorem fixedTail_of_hot_marks (hh : d.hotspot = true)
    (hcond : (jsLE (effCount d.count) FIXED_REMOVE_THRESHOLD && !d.removed) = true) :
    fixedTail now id d =
      ({ d with removed := true, removedByWorker := true, lastSeen := .num now },
       [.markRemoved id now]) := by
  simp only [fixedTail, hh, if_true]
  simp_all

end StepLemmas

/-- C3: for a non-fixed record with `count ≤ 0` and `hotspot = false`
(and a numeric, nonzero timestamp), the maintenance step physically
deletes it when its timestamp predates the lookback cutoff, and
otherwise does not delete it and leaves it marked `removed = true`. -/
theorem count_zero_window_policy (now cutoff : Int) (id : String) (d : CamData)
    (c t : Int)
    (hty : ¬ effType d = "fixed_camera")
    (hc : d.count = .num c) (hc0 : c ≤ 0)
    (hh : d.hotspot = false)
    (ht : d.timestamp = .num t) (ht0 : t ≠ 0) :
    (t < cutoff → (lifecycleStep now cutoff id d).2.1 = true)
    ∧ (cutoff ≤ t →
        (lifecycleStep now cutoff id d).2.1 = false
        ∧ (lifecycleStep now cutoff id d).1.removed = true) := by
  rw [lifecycleStep_mobile hty]
  obtain ⟨-, -, -, h4c, h4h, -, -⟩ :=
    @norm4_preserves now (effType d) id d
  have h4t : (norm4 now (effType d) id d).1.timestamp = .num t := by
    rw [norm4_timestamp, ht]
    simp [TVal.truthy, ht0]
  have hh4 : (norm4 now (effType d) id d).1.hotspot = false := by rw [h4h, hh]
  have hc4 : jsLE (effCount (norm4 now (effType d) id d).1.count) 0 = true := by
    rw [h4c, hc]
    simp [effCount, jsLE, hc0]
  rw [mobileTail_count_branch hh4 hc4]
  have hts : ((norm4 now (effType d) id d).1.timestamp.toNumber).getD 0 = t := by
    rw [h4t]; rfl
  constructor
  · intro hlt
    rw [hideOrDelete_old (by rw [hts]; exact hlt)]
  · intro hge
    have := @hideOrDelete_not_deleted_of_recent now cutoff id
      ((norm4 now (effType d) id d).1) (by rw [hts]; omega)
    simpa using this

/-- Witness for `count_zero_window_policy` at a concrete record, in
both the old-timestamp (delete) and recent-timestamp (hide) cases. -/
theorem count_zero_window_policy_witness :
    (lifecycleStep 1000000000000 999136000000 "a"
      { timestamp := .num 5, count := .num 0, confidence := some 70,
        expiresAt := .num 2000000000000, lastSeen := .num 9 }).2.1 = true
    ∧ ((lifecycleStep 1000000000000 999136000000 "a"
        { timestamp := .num 999500000000, count := .num 0, confidence := some 70,
          expiresAt := .num 2000000000000, lastSeen := .num 9 }).2.1 = false
      ∧ (lifecycleStep 1000000000000 999136000000 "a"
        { timestamp := .num 999500000000, count := .num 0, confidence := some 70,
          expiresAt := .num 2000000000000, lastSeen := .num 9 }).1.removed = true) :=
  ⟨(count_zero_window_policy 1000000000000 999136000000 "a" _ 0 5
      (by decide) rfl (by decide) rfl rfl (by decide)).1 (by decide),
   (count_zero_window_policy 1000000000000 999136000000 "a" _ 0 999500000000
      (by decide) rfl (by decide) rfl rfl (by decide)).2 (by decide)⟩

/-- C4: a record with `hotspot = true` is never physically deleted by
the maintenance step, and when the (non-fixed) record is found expired
(`expiresAt` truthy and `Number(expiresAt) < now`) the step resets
`expiresAt` to `now + PRESERVE_HOTSPOT_DAYS` days and `lastSeen` to
`now`. -/
theorem hotspot_preservation (now cutoff : Int) (id : String) (d : CamData)
    (hh : d.hotspot = true) :
    (lifecycleStep now cutoff id d).2.1 = false
    ∧ (¬ effType d = "fixed_camera" → d.expiresAt.truthy = true →
        jsLT d.expiresAt.toNumber now = true →
        (lifecycleStep now cutoff id d).1.expiresAt =
          .num (now + PRESERVE_HOTSPOT_DAYS * MS_DAY)
        ∧ (lifecycleStep now cutoff id d).1.lastSeen = .num now) := by
  constructor
  · by_cases hty : effType d = "fixed_camera"
    · rw [lifecycleStep_fixed hty]
    · rw [lifecycleStep_mobile hty]
      obtain ⟨-, -, -, -, h4h, -, -⟩ :=
        @norm4_preserves now (effType d) id d
      have hh4 : (norm4 now (effType d) id d).1.hotspot = true := by rw [h4h, hh]
      by_cases he : (norm4 now (effType d) id d).1.expiresAt.truthy = true
      · by_cases hl : jsLT (norm4 now (effType d) id d).1.expiresAt.toNumber now = true
        · rw [mobileTail_expired_hot hh4 he hl]
        · rw [mobileTail_inactive (Or.inl hh4)
            (Or.inr (Bool.not_eq_true _ ▸ hl))]
      · rw [mobileTail_inactive (Or.inl hh4) (Or.inl (Bool.not_eq_true _ ▸ he))]
  · intro hty he hlt
    rw [lifecycleStep_mobile hty]
    obtain ⟨-, -, -, -, h4h, -, -⟩ :=
      @norm4_preserves now (effType d) id d
    have hh4 : (norm4 now (effType d) id d).1.hotspot = true := by rw [h4h, hh]
    have h4e : (norm4 now (effType d) id d).1.expiresAt = d.expiresAt :=
      norm4_expiresAt_of_truthy he
    rw [mobileTail_expired_hot hh4 (by rw [h4e]; exact he) (by rw [h4e]; exact hlt)]
    exact ⟨rfl, rfl⟩

/-- Witness for `hotspot_preservation`: an expired hotspot record is
kept and has its TTL extended to `now + 10` days. -/
theorem hotspot_preservation_witness :
    (lifecycleStep 1000000000000 999136000000 "a"
      { timestamp := .num 999500000000, count := .num 0, confidence := some 70,
        hotspot := true, expiresAt := .num 7, lastSeen := .num 9 }).2.1 = false
    ∧ (lifecycleStep 1000000000000 999136000000 "a"
      { timestamp := .num 999500000000, count := .num 0, confidence := some 70,
        hotspot := true, expiresAt := .num 7, lastSeen := .num 9 }).1.expiresAt =
        .num (1000000000000 + PRESERVE_HOTSPOT_DAYS * MS_DAY) :=
  ⟨(hotspot_preservation 1000000000000 999136000000 "a" _ rfl).1,
   ((hotspot_preservation 1000000000000 999136000000 "a" _ rfl).2
      (by decide) (by decide) (by decide)).1⟩

/-- C5: a fixed camera is never physically deleted by the maintenance
step, whatever its count; and when `count ≤ FIXED_REMOVE_THRESHOLD` and
it is not already removed, it is marked `removed = true`,
`removedByWorker = true`, `lastSeen = now`, and stays in the store. -/
theorem fixed_never_deleted (now cutoff : Int) (id : String) (d : CamData)
    (hty : effType d = "fixed_camera") :
    (lifecycleStep now cutoff id d).2.1 = false
    ∧ (∀ c : Int, d.count = .num c → c ≤ FIXED_REMOVE_THRESHOLD → d.removed = false →
        (lifecycleStep now cutoff id d).1.removed = true
        ∧ (lifecycleStep now cutoff id d).1.removedByWorker = true
        ∧ (lifecycleStep now cutoff id d).1.lastSeen = .num now) := by
  rw [lifecycleStep_fixed hty]
  refine ⟨rfl, ?_⟩
  intro c hc hcle hrem
  obtain ⟨-, -, -, h2c, -, -, h2r, -, -⟩ :=
    @norm2_preserves now "fixed_camera" id d
  exact fixedTail_marks (by
    rw [h2c, h2r, hc, hrem]
    simp [effCount, jsLE, hcle])

/-- Witness for `fixed_never_deleted`: the spec's own example, a fixed
camera with `count = -4` under threshold `-3`: marked removed, still
present. -/
theorem fixed_never_deleted_witness :
    (lifecycleStep 1000000000000 999136000000 "f"
      { type := some "fixed_camera", count := .num (-4), timestamp := .num 3,
        confidence := some 100 }).2.1 = false
    ∧ (lifecycleStep 1000000000000 999136000000 "f"
      { type := some "fixed_camera", count := .num (-4), timestamp := .num 3,
        confidence := some 100 }).1.removed = true :=
  ⟨(fixed_never_deleted 1000000000000 999136000000 "f" _ (by decide)).1,
   ((fixed_never_deleted 1000000000000 999136000000 "f" _ (by decide)).2
      (-4) rfl (by decide) rfl).1⟩

/-- The great-circle distance oracle (`geolib.getDistance`), in metres,
as a function of the two raw lat/lon field values. -/
abbrev Dist := TVal → TVal → TVal → TVal → Nat

/-- The summary-key oracle: `'hs_' + Number(lat).toFixed(4) + '_' + Number(lon).toFixed(4)`. -/
abbrev GridKey := TVal → TVal → String

/-- `now - HOTSPOT_WINDOW_DAYS * MS.DAY`. -/
def windowCutoff (now : Int) : Int := now - HOTSPOT_WINDOW_DAYS * MS_DAY

/-- The per-doc maintenance loop over the whole snapshot; each entry
keeps the final in-memory data (the loop mutates `d` in place, so this
is visible to the later hotspot pass even for deleted docs), the
deleted flag, and the mutations. -/
def steppedOf (now : Int) (cams : List (String × CamData)) :
    List (String × CamData × Bool × List Mut) :=
  cams.map fun p => (p.1, lifecycleStep now (windowCutoff now) p.1 p.2)

/-- The in-memory array after the maintenance loop (deleted docs are
still present, as in the source's `cams` array). -/
def inMemOf (now : Int) (cams : List (String × CamData)) : List (String × CamData) :=
  (steppedOf now cams).map fun p => (p.1, p.2.1)

/-- The documents still physically present in the store after the
maintenance loop. -/
def survivorsOf (now : Int) (cams : List (String × CamData)) : List (String × CamData) :=
  ((steppedOf now cams).filter fun p => !p.2.2.1).map fun p => (p.1, p.2.1)

/-- All mutations of the maintenance loop, in order. -/
def lifeMutsOf (now : Int) (cams : List (String × CamData)) : List Mut :=
  ((steppedOf now cams).map fun p => p.2.2.2).flatten

/-- The recent-mobile filter of the hotspot pass:
`(t === 'mobile_camera') && (c.data && c.data.timestamp && c.data.timestamp >= hotspotWindowCutoff)`. -/
def camMobileFilter (cutoff : Int) (d : CamData) : Bool :=
  decide (effType d = "mobile_camera") && d.timestamp.truthy
    && jsGE d.timestamp.toNumber cutoff

/-- The hotspot candidate snapshot: recent mobile camera docs (from the
post-maintenance in-memory array) plus recent mobile raw reports, the
latter with ids prefixed `r_`. -/
def mobileDocsOf (now : Int) (cams reports : List (String × CamData)) :
    List (String × CamData) :=
  (inMemOf now cams).filter (fun c => camMobileFilter (windowCutoff now) c.2)
    ++ (reports.map fun r => ("r_" ++ r.1, r.2)).filter
        (fun r => camMobileFilter (windowCutoff now) r.2)

/-- The per-candidate validity test of the nearby filter:
`!(!od.lat || !od.lon || !od.timestamp)`. -/
def nearbyOk (d : CamData) : Bool :=
  d.lat.truthy && d.lon.truthy && d.timestamp.truthy

/-- `mobileDocs.filter(o => ... getDistance(b, o) <= HOTSPOT_RADIUS_M)`. -/
def nearbyOf (dist : Dist) (docs : List (String × CamData)) (b : CamData) :
    List (String × CamData) :=
  docs.filter fun o =>
    nearbyOk o.2 && decide (dist b.lat b.lon o.2.lat o.2.lon ≤ HOTSPOT_RADIUS_M)

/-- The promotion update for one nearby member (skipped for raw-report
entries, whose ids start with `r_`). -/
def promoteMut (now : Int) (n : String × CamData) : Option Mut :=
  if strStartsWith n.1 "r_" then none
  else
    let newConf := min 100 (jsOrInt n.2.confidence 70 + 20)
    let pu := now + PRESERVE_HOTSPOT_DAYS * MS_DAY
    let ls := mathMax (jsOr n.2.lastSeen (.num 0)) (jsOr n.2.timestamp (.num 0))
    some (.promote n.1 newConf pu ls)

/-- `Math.max(...nearby.map(n => n.data.timestamp || 0))` (`NaN`
absorbing; the empty case never arises since a summary needs at least
`HOTSPOT_THRESHOLD` members). -/
def maxReported : List (String × CamData) → Option Int
  | [] => none
  | h :: t =>
    t.foldl (fun acc n => match acc, (jsOr n.2.timestamp (.num 0)).toNumber with
      | some x, some y => some (max x y)
      | _, _ => none)
      ((jsOr h.2.timestamp (.num 0)).toNumber)

/-- The summary upsert emitted when a cluster fires at seed `b`. -/
def summaryMut (gridKey : GridKey) (now : Int) (b : CamData)
    (nearby : List (String × CamData)) : Mut :=
  .upsertSummary (gridKey b.lat b.lon) b.lat.toNumber b.lon.toNumber
    nearby.length (maxReported nearby)
    (min 1 ((nearby.length : ℚ) / (HOTSPOT_THRESHOLD : ℚ))) now

/-- One iteration of the hotspot loop for seed entry `e`: skip on falsy
coordinates/timestamp or when the in-memory `hotspot` flag is truthy;
otherwise fire when the nearby count reaches the threshold.  The loop
never writes back into the in-memory snapshot, so later seeds observe
the pre-pass flags. -/
def seedMuts (dist : Dist) (gridKey : GridKey) (now : Int)
    (docs : List (String × CamData)) (e : String × CamData) : List Mut :=
  let b := e.2
  if !(b.lat.truthy && b.lon.truthy && b.timestamp.truthy) then []
  else if b.hotspot then []
  else if HOTSPOT_THRESHOLD ≤ (nearbyOf dist docs b).length then
    (nearbyOf dist docs b).filterMap (promoteMut now)
      ++ [summaryMut gridKey now b (nearbyOf dist docs b)]
  else []

/-- All mutations of the hotspot pass, in loop order. -/
def clusterMutsOf (dist : Dist) (gridKey : GridKey) (now : Int)
    (docs : List (String × CamData)) : List Mut :=
  (docs.map (seedMuts dist gridKey now docs)).flatten

/-- Apply one mutation of the hotspot pass to one stored document: a
promotion update whose target id matches overwrites the four promotion
fields; every other mutation leaves the document alone. -/
def promoteStep (m : Mut) (q : String × CamData) : String × CamData :=
  match m with
  | .promote i c e l =>
    if q.1 = i then
      (q.1, { q.2 with hotspot := true, confidence := some c,
                       expiresAt := .num e, lastSeen := l })
    else q
  | _ => q

/-- Apply a promotion update to the camera store (all other mutations
were already materialised by the maintenance loop). -/
def applyPromote (cams : List (String × CamData)) (m : Mut) : List (String × CamData) :=
  cams.map (promoteStep m)

/-- The cumulative effect on one stored document of applying a list of
hotspot-pass mutations in order. -/
def applyChain (muts : List Mut) (p : String × CamData) : String × CamData :=
  muts.foldl (fun q m => promoteStep m q) p

/-- Key-addressed merge-upsert into the summary collection. -/
def upsert (key : String) (doc : Mut) : List (String × Mut) → List (String × Mut)
  | [] => [(key, doc)]
  | p :: rest => if p.1 = key then (key, doc) :: rest else p :: upsert key doc rest

/-- Apply a summary upsert to the summary store (the stored value is
the full upsert payload). -/
def applySummary (sums : List (String × Mut)) : Mut → List (String × Mut)
  | .upsertSummary k la lo rc lr cf ua => upsert k (.upsertSummary k la lo rc lr cf ua) sums
  | _ => sums

/-- One full run of the worker: the maintenance loop, then the hotspot
pass over the post-maintenance snapshot; returns the resulting camera
store, the resulting summary store, and every mutation written, in
order. -/
def runPass (dist : Dist) (gridKey : GridKey) (now : Int)
    (cams reports : List (String × CamData)) (sums : List (String × Mut)) :
    List (String × CamData) × List (String × Mut) × List Mut :=
  let docs := mobileDocsOf now cams reports
  let cmuts := clusterMutsOf dist gridKey now docs
  (cmuts.foldl applyPromote (survivorsOf now cams),
   cmuts.foldl applySummary sums,
   lifeMutsOf now cams ++ cmuts)


theorem norm4_confidence_of_some {now : Int} {ty id : String} {d : CamData}
    (h : d.confidence ≠ none) :
    (norm4 now ty id d).1.confidence = d.confidence := by
  simp only [norm4, norm2, normTimestamp, normConfidence, normExpires, normLastSeen]
  split_ifs <;> simp_all

/-- C8 counterexample: a record whose `timestamp` field holds the value
`0` (the epoch instant, a present value) is overwritten by
normalization — the step writes `timestamp := now` and the stored value
changes, refuting "never overwrite a field that already has a value". -/
theorem normalization_overwrite_counterexample :
    ({ timestamp := .num 0, count := .num 1, confidence := some 70,
       expiresAt := .num 2000000000000, lastSeen := .num 9 } : CamData).timestamp = .num 0
    ∧ (lifecycleStep 1000000000000 999136000000 "x"
        { timestamp := .num 0, count := .num 1, confidence := some 70,
          expiresAt := .num 2000000000000, lastSeen := .num 9 }).1.timestamp =
        .num 1000000000000
    ∧ Mut.setTimestamp "x" 1000000000000 ∈ (lifecycleStep 1000000000000 999136000000 "x"
        { timestamp := .num 0, count := .num 1, confidence := some 70,
          expiresAt := .num 2000000000000, lastSeen := .num 9 }).2.2 := by decide

/-- C8 amended: normalization fills a field only when it is absent or
falsy (`0`, `""`, `NaN`, `null`): any truthy stored `timestamp`,
`expiresAt` or `lastSeen`, and any non-null `confidence`, is left
unchanged, and the remaining fields are never touched; but a present
falsy value (such as `timestamp = 0`) is treated as unset and is
overwritten. -/
theorem normalization_frame (now : Int) (ty id : String) (d : CamData) :
    (d.timestamp.truthy = true → (norm4 now ty id d).1.timestamp = d.timestamp)
    ∧ (d.confidence ≠ none → (norm4 now ty id d).1.confidence = d.confidence)
    ∧ (d.expiresAt.truthy = true → (norm4 now ty id d).1.expiresAt = d.expiresAt)
    ∧ (d.lastSeen.truthy = true → (norm4 now ty id d).1.lastSeen = d.lastSeen)
    ∧ (norm4 now ty id d).1.type = d.type
    ∧ (norm4 now ty id d).1.lat = d.lat
    ∧ (norm4 now ty id d).1.lon = d.lon
    ∧ (norm4 now ty id d).1.count = d.count
    ∧ (norm4 now ty id d).1.hotspot = d.hotspot
    ∧ (norm4 now ty id d).1.removed = d.removed
    ∧ (norm4 now ty id d).1.removedByWorker = d.removedByWorker := by
  obtain ⟨h1, h2, h3, h4, h5, h6, h7⟩ := @norm4_preserves now ty id d
  refine ⟨?_, ?_, ?_, ?_, h1, h2, h3, h4, h5, h6, h7⟩
  · intro h
    rw [norm4_timestamp]
    simp [h]
  · exact norm4_confidence_of_some
  · exact norm4_expiresAt_of_truthy
  · exact norm4_lastSeen_of_truthy

/-- Witness for `normalization_frame` at a fully-populated record: all
four guarded fields are preserved. -/
theorem normalization_frame_witness :
    (norm4 7 "mobile_camera" "w"
      { timestamp := .num 3, count := .num 1, confidence := some 55,
        expiresAt := .num 4, lastSeen := .num 6 }).1.timestamp = .num 3
    ∧ (norm4 7 "mobile_camera" "w"
      { timestamp := .num 3, count := .num 1, confidence := some 55,
        expiresAt := .num 4, lastSeen := .num 6 }).1.confidence = some 55 :=
  ⟨(normalization_frame 7 "mobile_camera" "w" _).1 (by decide),
   (normalization_frame 7 "mobile_camera" "w" _).2.1 (by decide)⟩

/-- C9 counterexample: a non-numeric, non-empty string `count` parses
to `NaN`, not `0`: the worker then skips the `count <= 0` hide/delete
branch that an actual `count = 0` record takes, so non-numeric counts
are not treated as `0`. -/
theorem count_nonnumeric_counterexample :
    effCount (.str "abc") ≠ some 0
    ∧ (lifecycleStep 1000000000000 999136000000 "x"
        { timestamp := .num 999500000000, count := .str "abc", confidence := some 70,
          expiresAt := .num 2000000000000, lastSeen := .num 9 }).1.removed = false
    ∧ (lifecycleStep 1000000000000 999136000000 "x"
        { timestamp := .num 999500000000, count := .num 0, confidence := some 70,
          expiresAt := .num 2000000000000, lastSeen := .num 9 }).1.removed = true := by
  decide

/-- C9 amended: an absent `count`, an empty-string `count`, and any
falsy `count` parse to `0`, and a numeric `count` is used as is; but a
non-empty string that does not parse as a number yields `NaN`, which
fails every `<=` threshold test (so such records behave like positive
counts, not like `0`). -/
theorem count_coercion :
    effCount .missing = some 0
    ∧ effCount (.str "") = some 0
    ∧ effCount .nan = none
    ∧ (∀ n : Int, effCount (.num n) = some n)
    ∧ (∀ s : String, s ≠ "" → strToNumber s = none →
        effCount (.str s) = none
        ∧ jsLE (effCount (.str s)) 0 = false
        ∧ jsLE (effCount (.str s)) FIXED_REMOVE_THRESHOLD = false) := by
  refine ⟨by decide, by decide, rfl, fun n => rfl, ?_⟩
  intro s hs hnone
  have he : effCount (.str s) = none := by
    simp [effCount, jsOr, TVal.truthy, hs, TVal.toNumber, hnone]
  exact ⟨he, by rw [he]; rfl, by rw [he]; rfl⟩

/-- Witness for `count_coercion` at the concrete string `"abc"`. -/
theorem count_coercion_witness :
    effCount (.str "abc") = none ∧ jsLE (effCount (.str "abc")) 0 = false :=
  ⟨(count_coercion.2.2.2.2 "abc" (by decide) (by decide)).1,
   (count_coercion.2.2.2.2 "abc" (by decide) (by decide)).2.1⟩

/-- Entries of an association list with nodup keys are determined by
their key. -/
theorem eq_of_mem_of_nodup_keys {α β : Type} {l : List (α × β)}
    (h : (l.map Prod.fst).Nodup) {i : α} {x y : β}
    (hx : (i, x) ∈ l) (hy : (i, y) ∈ l) : x = y := by
  induction l with
  | nil => cases hx
  | cons a t ih =>
    simp only [List.map_cons, List.nodup_cons] at h
    rcases List.mem_cons.mp hx with hx1 | hx1 <;> rcases List.mem_cons.mp hy with hy1 | hy1
    · rw [← hx1] at hy1
      exact (congrArg Prod.snd hy1).symm
    · exfalso
      apply h.1
      have hi : i ∈ t.map Prod.fst := List.mem_map_of_mem Prod.fst hy1
      rw [← hx1]
      exact hi
    · exfalso
      apply h.1
      have hi : i ∈ t.map Prod.fst := List.mem_map_of_mem Prod.fst hx1
      rw [← hy1]
      exact hi
    · exact ih h.2 hx1 hy1

/-- Every promotion write of the hotspot pass targets a member of the
candidate snapshot that passed the truthy-coordinate check and whose id
does not carry the raw-report prefix. -/
theorem promote_mem_clusterMuts {dist : Dist} {gk : GridKey} {now : Int}
    {docs : List (String × CamData)} {i : String} {c x : Int} {l : TVal}
    (h : Mut.promote i c x l ∈ clusterMutsOf dist gk now docs) :
    ∃ o ∈ docs, o.1 = i ∧ nearbyOk o.2 = true ∧ strStartsWith o.1 "r_" = false := by
  rw [clusterMutsOf, List.mem_flatten] at h
  obtain ⟨ms, hms, hm⟩ := h
  rw [List.mem_map] at hms
  obtain ⟨e, he, rfl⟩ := hms
  rw [seedMuts] at hm
  split at hm
  · cases hm
  · split at hm
    · cases hm
    · split at hm
      · rcases List.mem_append.mp hm with hm1 | hm1
        · obtain ⟨n, hn, hpn⟩ := List.mem_filterMap.mp hm1
          rw [promoteMut] at hpn
          split at hpn
          · cases hpn
          · rename_i hpre
            injection hpn with hpn
            injection hpn with h1 h2 h3 h4
            obtain ⟨hnd, hpred⟩ := List.mem_filter.mp hn
            refine ⟨n, hnd, h1, ?_, ?_⟩
            · exact ((Bool.and_eq_true _ _).mp hpred).1
            · simpa using hpre
        · simp only [List.mem_singleton] at hm1
          simp [summaryMut] at hm1
      · cases hm

/-- C10: a record whose `lat`, `lon` or `timestamp` field is falsy
(for example the semantically valid value `0`) is excluded from the
hotspot pass both as a seed and as a counted neighbor, and receives no
promotion write. -/
theorem falsy_coords_never_promoted (dist : Dist) (gk : GridKey) (now : Int)
    (docs : List (String × CamData)) (id : String) (d : CamData)
    (hfalsy : nearbyOk d = false) (hmem : (id, d) ∈ docs)
    (hnodup : (docs.map Prod.fst).Nodup) :
    seedMuts dist gk now docs (id, d) = []
    ∧ (∀ b : CamData, (id, d) ∉ nearbyOf dist docs b)
    ∧ (∀ (c x : Int) (l : TVal), Mut.promote id c x l ∉ clusterMutsOf dist gk now docs) := by
  have hf : (d.lat.truthy && d.lon.truthy && d.timestamp.truthy) = false := by
    simpa [nearbyOk] using hfalsy
  refine ⟨?_, ?_, ?_⟩
  · rw [seedMuts]
    simp [hf]
  · intro b hb
    have hpred := (List.mem_filter.mp hb).2
    rw [Bool.and_eq_true] at hpred
    rw [hpred.1] at hfalsy
    cases hfalsy
  · intro c x l hmem2
    obtain ⟨o, ho, hoi, hok, -⟩ := promote_mem_clusterMuts hmem2
    have ho2 : (id, o.2) ∈ docs := by
      rw [← hoi]
      simpa using ho
    have heq : o.2 = d := eq_of_mem_of_nodup_keys hnodup ho2 hmem
    rw [heq] at hok
    rw [hok] at hfalsy
    cases hfalsy

/-- The two-record snapshot used to witness the falsy-coordinate
exclusion: note `lat = 0` on record `a`. -/
def zeroLatRecord : CamData :=
  { lat := .num 0, lon := .num 4, timestamp := .num 999500000000,
    count := .num 1, confidence := some 70 }

/-- A snapshot containing `zeroLatRecord` and one promotable record. -/
def zeroLatDocs : List (String × CamData) :=
  [("a", zeroLatRecord),
   ("b", { lat := .num 2, lon := .num 4, timestamp := .num 999500000000,
           count := .num 1, confidence := some 70 })]

/-- Witness for `falsy_coords_never_promoted`: a record at the equator
(`lat = 0`) among otherwise promotable records emits no seed mutations
and is in nobody's nearby set. -/
theorem falsy_coords_never_promoted_witness :
    seedMuts (fun _ _ _ _ => 0) (fun _ _ => "k") 1000000000000 zeroLatDocs
      ("a", zeroLatRecord) = []
    ∧ Mut.promote "a" 90 1000864000000 (.num 999500000000) ∉
        clusterMutsOf (fun _ _ _ _ => 0) (fun _ _ => "k") 1000000000000 zeroLatDocs :=
  ⟨(falsy_coords_never_promoted (fun _ _ _ _ => 0) (fun _ _ => "k") 1000000000000
      zeroLatDocs "a" zeroLatRecord (by decide) (by decide) (by decide)).1,
   (falsy_coords_never_promoted (fun _ _ _ _ => 0) (fun _ _ => "k") 1000000000000
      zeroLatDocs "a" zeroLatRecord (by decide) (by decide) (by decide)).2.2
      90 1000864000000 (.num 999500000000)⟩

/-- Recognises the hide write (`removed`, `removedByWorker`,
`lastSeen`). -/
def isMark : Mut → Bool
  | .markRemoved _ _ => true
  | _ => false

theorem norm2_muts_no_mark {now : Int} {ty id : String} {d : CamData} :
    ∀ m ∈ (norm2 now ty id d).2, isMark m = false := by
  simp only [norm2, normTimestamp, normConfidence]
  split_ifs <;> simp [isMark]

theorem norm4_muts_no_mark {now : Int} {ty id : String} {d : CamData} :
    ∀ m ∈ (norm4 now ty id d).2, isMark m = false := by
  simp only [norm4, norm2, normTimestamp, normConfidence, normExpires, normLastSeen]
  split_ifs <;> simp [isMark]

theorem fixedTail_muts_no_mark {now : Int} {id : String} {d : CamData}
    (hr : d.removed = true) :
    ∀ m ∈ (fixedTail now id d).2, isMark m = false := by
  simp only [fixedTail]
  cases hh : d.hotspot <;> simp [hh, hr, isMark]

theorem hideOrDelete_muts_no_mark {now cutoff : Int} {id : String} {d : CamData}
    (hr : d.removed = true) :
    ∀ m ∈ (hideOrDelete now cutoff id d).2.2, isMark m = false := by
  simp only [hideOrDelete]
  split_ifs <;> simp_all [isMark]

theorem mobileTail_muts_no_mark {now cutoff : Int} {id : String} {d : CamData}
    (hr : d.removed = true) :
    ∀ m ∈ (mobileTail now cutoff id d).2.2, isMark m = false := by
  simp only [mobileTail]
  split_ifs <;>
    first
      | exact hideOrDelete_muts_no_mark hr
      | simp [isMark]

/-- C6 counterexample: a record already marked `removed = true` by an
external actor is not skipped: with `count ≤ 0`, `hotspot` off and a
timestamp older than the lookback window, the maintenance step
physically deletes it. -/
theorem removed_skip_counterexample :
    (lifecycleStep 1000000000000 999136000000 "x"
      { timestamp := .num 5, count := .num (-1), confidence := some 70,
        expiresAt := .num 7, lastSeen := .num 9, removed := true }).2.1 = true
    ∧ Mut.deleteDoc "x" ∈ (lifecycleStep 1000000000000 999136000000 "x"
      { timestamp := .num 5, count := .num (-1), confidence := some 70,
        expiresAt := .num 7, lastSeen := .num 9, removed := true }).2.2 := by
  decide

/-- C6 amended: the maintenance step never issues the hide write
(`removed`/`removedByWorker`/`lastSeen`) for a record whose `removed`
flag is already set — every hide site is guarded by `!removed` — though
such a record may still receive normalization defaults, the
fixed-camera `hotspot` write or the hotspot extension, and may still be
deleted when it qualifies for physical deletion. -/
theorem removed_never_remarked (now cutoff : Int) (id : String) (d : CamData)
    (hr : d.removed = true) :
    ∀ m ∈ (lifecycleStep now cutoff id d).2.2, isMark m = false := by
  by_cases hty : effType d = "fixed_camera"
  · rw [lifecycleStep_fixed hty]
    intro m hm
    rcases List.mem_append.mp hm with h | h
    · exact norm2_muts_no_mark m h
    · refine fixedTail_muts_no_mark ?_ m h
      obtain ⟨-, -, -, -, -, -, h2r, -, -⟩ := @norm2_preserves now "fixed_camera" id d
      rw [h2r, hr]
  · rw [lifecycleStep_mobile hty]
    intro m hm
    rcases List.mem_append.mp hm with h | h
    · exact norm4_muts_no_mark m h
    · refine mobileTail_muts_no_mark ?_ m h
      obtain ⟨-, -, -, -, -, h4r, -⟩ := @norm4_preserves now (effType d) id d
      rw [h4r, hr]

/-- Witness for `removed_never_remarked` at a concrete already-removed
record. -/
theorem removed_never_remarked_witness :
    ((lifecycleStep 1000000000000 999136000000 "x"
      { timestamp := .num 999500000000, count := .num (-1), confidence := some 70,
        expiresAt := .num 2000000000000, lastSeen := .num 9,
        removed := true }).2.2.all fun m => !isMark m) = true := by
  rw [List.all_eq_true]
  intro m hm
  have h := removed_never_remarked 1000000000000 999136000000 "x"
    { timestamp := .num 999500000000, count := .num (-1), confidence := some 70,
      expiresAt := .num 2000000000000, lastSeen := .num 9, removed := true }
    rfl m hm
  simp [h]

theorem hideOrDelete_deleted {now cutoff : Int} {id : String} {d : CamData}
    (h : (hideOrDelete now cutoff id d).2.1 = true) :
    (hideOrDelete now cutoff id d).1 = d ∧ (d.timestamp.toNumber).getD 0 < cutoff := by
  rw [hideOrDelete] at h ⊢
  split_ifs at h ⊢ <;> simp_all

theorem mobileTail_deleted {now cutoff : Int} {id : String} {d : CamData}
    (h : (mobileTail now cutoff id d).2.1 = true) :
    (mobileTail now cutoff id d).1 = d ∧ (d.timestamp.toNumber).getD 0 < cutoff := by
  rw [mobileTail] at h ⊢
  split_ifs at h ⊢ <;>
    first
      | exact hideOrDelete_deleted h
      | simp_all

/-- A record physically deleted by the maintenance step cannot pass the
recent-mobile filter of the hotspot pass: deletion requires a
numeric-or-NaN timestamp below the window cutoff, the filter requires
one at or above it. -/
theorem deleted_fails_filter {now cutoff : Int} {id : String} {d : CamData}
    (h : (lifecycleStep now cutoff id d).2.1 = true) :
    camMobileFilter cutoff (lifecycleStep now cutoff id d).1 = false := by
  by_cases hty : effType d = "fixed_camera"
  · rw [lifecycleStep_fixed hty] at h
    cases h
  · rw [lifecycleStep_mobile hty] at h ⊢
    obtain ⟨hd, hts⟩ := mobileTail_deleted (by simpa using h)
    have hge : jsGE ((norm4 now (effType d) id d).1).timestamp.toNumber cutoff = false := by
      rcases hn : ((norm4 now (effType d) id d).1).timestamp.toNumber with _ | n
      · simp [jsGE]
      · rw [hn] at hts
        simp only [Option.getD_some] at hts
        simp only [jsGE, decide_eq_false_iff_not]
        omega
    simp only [camMobileFilter]
    rw [show ((mobileTail now cutoff id (norm4 now (effType d) id d).1).1,
          (mobileTail now cutoff id (norm4 now (effType d) id d).1).2.1,
          (norm4 now (effType d) id d).2 ++
            (mobileTail now cutoff id (norm4 now (effType d) id d).1).2.2).1 =
        (mobileTail now cutoff id (norm4 now (effType d) id d).1).1 from rfl, hd, hge]
    simp

/-- `"r_" ++ s` always carries the raw-report prefix. -/
theorem strStartsWith_r_append (s : String) : strStartsWith ("r_" ++ s) "r_" = true := by
  have hdata : ("r_" ++ s).toList = 'r' :: '_' :: s.toList := by
    have := String.data_append "r_" s
    simpa [String.toList] using this
  simp [strStartsWith, hdata, listIsPrefix]

/-- C7: a record physically deleted by the maintenance loop of the same
run is absent from the hotspot candidate snapshot (so it is neither a
seed nor a counted neighbor) and receives no promotion write. -/
theorem deleted_excluded_from_clustering (dist : Dist) (gk : GridKey) (now : Int)
    (cams reports : List (String × CamData))
    (hnodup : (cams.map Prod.fst).Nodup)
    (id : String) (dd : CamData × Bool × List Mut)
    (hmem : (id, dd) ∈ steppedOf now cams) (hdel : dd.2.1 = true) :
    (id, dd.1) ∉ mobileDocsOf now cams reports
    ∧ (∀ (c x : Int) (l : TVal),
        Mut.promote id c x l ∉ clusterMutsOf dist gk now (mobileDocsOf now cams reports)) := by
  obtain ⟨p, hp, hpe⟩ := List.mem_map.mp hmem
  have hpid : p.1 = id := congrArg Prod.fst hpe
  have hpd : lifecycleStep now (windowCutoff now) p.1 p.2 = dd := congrArg Prod.snd hpe
  have hfail : camMobileFilter (windowCutoff now) dd.1 = false := by
    rw [← hpd]
    exact deleted_fails_filter (by rw [hpd]; exact hdel)
  constructor
  · intro hin
    rcases List.mem_append.mp hin with h | h
    · have := (List.mem_filter.mp h).2
      simp only [hfail] at this
      cases this
    · have := (List.mem_filter.mp h).2
      simp only [hfail] at this
      cases this
  · intro c x l hpm
    obtain ⟨o, ho, hoi, hok, hopre⟩ := promote_mem_clusterMuts hpm
    rcases List.mem_append.mp ho with h | h
    · obtain ⟨hoin, hofil⟩ := List.mem_filter.mp h
      obtain ⟨q, hq, hqe⟩ := List.mem_map.mp hoin
      have hkeys : ((steppedOf now cams).map Prod.fst).Nodup := by
        have hsk : (steppedOf now cams).map Prod.fst = cams.map Prod.fst := by
          rw [steppedOf, List.map_map]
          rfl
        rw [hsk]
        exact hnodup
      have hqid : q.1 = id := by
        have h1 : q.1 = o.1 := congrArg Prod.fst hqe
        rw [h1, hoi]
      have hq2 : (id, q.2) ∈ steppedOf now cams := by
        rw [← hqid]
        simpa using hq
      have hqdd : q.2 = dd := eq_of_mem_of_nodup_keys hkeys hq2 hmem
      have ho2 : o.2 = dd.1 := by
        have h2 : q.2.1 = o.2 := congrArg Prod.snd hqe
        rw [← h2, hqdd]
      rw [ho2, hfail] at hofil
      cases hofil
    · obtain ⟨hoin, -⟩ := List.mem_filter.mp h
      obtain ⟨r, hr, hre⟩ := List.mem_map.mp hoin
      have hpre : strStartsWith o.1 "r_" = true := by
        have h1 : "r_" ++ r.1 = o.1 := congrArg Prod.fst hre
        rw [← h1]
        exact strStartsWith_r_append r.1
      rw [hpre] at hopre
      cases hopre

/-- Witness for `deleted_excluded_from_clustering`: an old zero-count
record is deleted and takes no part in the hotspot pass over the rest
of the snapshot. -/
theorem deleted_excluded_from_clustering_witness :
    ("old", (lifecycleStep 1000000000000 (windowCutoff 1000000000000) "old"
        { lat := .num 1, lon := .num 1, timestamp := .num 5, count := .num 0,
          confidence := some 70, expiresAt := .num 7, lastSeen := .num 9 }).1) ∉
      mobileDocsOf 1000000000000
        [("old", { lat := .num 1, lon := .num 1, timestamp := .num 5, count := .num 0,
                   confidence := some 70, expiresAt := .num 7, lastSeen := .num 9 })]
        [] :=
  (deleted_excluded_from_clustering (fun _ _ _ _ => 0) (fun _ _ => "k") 1000000000000
    [("old", { lat := .num 1, lon := .num 1, timestamp := .num 5, count := .num 0,
               confidence := some 70, expiresAt := .num 7, lastSeen := .num 9 })]
    [] (by decide) "old"
    (lifecycleStep 1000000000000 (windowCutoff 1000000000000) "old"
      { lat := .num 1, lon := .num 1, timestamp := .num 5, count := .num 0,
        confidence := some 70, expiresAt := .num 7, lastSeen := .num 9 })
    (by decide) (by decide)).1

section FoldLemmas

theorem applyChain_cons (m : Mut) (muts : List Mut) (p : String × CamData) :
    applyChain (m :: muts) p = applyChain muts (promoteStep m p) := rfl

theorem foldl_applyPromote_eq_map (muts : List Mut) (cams : List (String × CamData)) :
    muts.foldl applyPromote cams = cams.map (applyChain muts) := by
  induction muts generalizing cams with
  | nil => exact (List.map_id cams).symm
  | cons m ms ih =>
    rw [List.foldl_cons]
    show ms.foldl applyPromote (applyPromote cams m) = _
    rw [ih, applyPromote, List.map_map]
    rfl

theorem promoteStep_fst (m : Mut) (p : String × CamData) : (promoteStep m p).1 = p.1 := by
  cases m <;>
    first
      | rfl
      | (simp only [promoteStep]; split <;> rfl)

theorem promoteStep_geo (m : Mut) (p : String × CamData) :
    (promoteStep m p).2.lat = p.2.lat ∧ (promoteStep m p).2.lon = p.2.lon
    ∧ (promoteStep m p).2.timestamp = p.2.timestamp
    ∧ (promoteStep m p).2.type = p.2.type
    ∧ (promoteStep m p).2.count = p.2.count
    ∧ (promoteStep m p).2.removed = p.2.removed
    ∧ (promoteStep m p).2.removedByWorker = p.2.removedByWorker := by
  cases m <;>
    first
      | exact ⟨rfl, rfl, rfl, rfl, rfl, rfl, rfl⟩
      | (simp only [promoteStep]; split <;> simp)

theorem applyChain_fst (muts : List Mut) (p : String × CamData) :
    (applyChain muts p).1 = p.1 := by
  induction muts generalizing p with
  | nil => rfl
  | cons m ms ih => rw [applyChain_cons, ih, promoteStep_fst]

theorem applyChain_geo (muts : List Mut) (p : String × CamData) :
    (applyChain muts p).2.lat = p.2.lat ∧ (applyChain muts p).2.lon = p.2.lon
    ∧ (applyChain muts p).2.timestamp = p.2.timestamp
    ∧ (applyChain muts p).2.type = p.2.type
    ∧ (applyChain muts p).2.count = p.2.count
    ∧ (applyChain muts p).2.removed = p.2.removed
    ∧ (applyChain muts p).2.removedByWorker = p.2.removedByWorker := by
  induction muts generalizing p with
  | nil => exact ⟨rfl, rfl, rfl, rfl, rfl, rfl, rfl⟩
  | cons m ms ih =>
    rw [applyChain_cons]
    obtain ⟨i1, i2, i3, i4, i5, i6, i7⟩ := ih (promoteStep m p)
    obtain ⟨s1, s2, s3, s4, s5, s6, s7⟩ := promoteStep_geo m p
    exact ⟨i1.trans s1, i2.trans s2, i3.trans s3, i4.trans s4,
           i5.trans s5, i6.trans s6, i7.trans s7⟩

theorem promoteStep_hotspot_mono (m : Mut) (p : String × CamData)
    (h : p.2.hotspot = true) : (promoteStep m p).2.hotspot = true := by
  cases m <;>
    first
      | exact h
      | (simp only [promoteStep]; split <;> simp [h])

theorem applyChain_hotspot_mono (muts : List Mut) (p : String × CamData)
    (h : p.2.hotspot = true) : (applyChain muts p).2.hotspot = true := by
  induction muts generalizing p with
  | nil => exact h
  | cons m ms ih => exact applyChain_cons m ms p ▸ ih _ (promoteStep_hotspot_mono m p h)

theorem promoteStep_promoted (c e : Int) (l : TVal) (p : String × CamData) :
    (promoteStep (.promote p.1 c e l) p).2.hotspot = true := by
  simp [promoteStep]

theorem applyChain_promoted (muts : List Mut) (p : String × CamData)
    (h : ∃ c e l, Mut.promote p.1 c e l ∈ muts) :
    (applyChain muts p).2.hotspot = true := by
  induction muts generalizing p with
  | nil => obtain ⟨c, e, l, hm⟩ := h; cases hm
  | cons m ms ih =>
    obtain ⟨c, e, l, hm⟩ := h
    rcases List.mem_cons.mp hm with h1 | h1
    · rw [applyChain_cons, ← h1]
      exact applyChain_hotspot_mono ms _ (promoteStep_promoted c e l p)
    · rw [applyChain_cons]
      exact ih (promoteStep m p) ⟨c, e, l, promoteStep_fst m p ▸ h1⟩

theorem applyChain_of_hotspot_false (muts : List Mut) (p : String × CamData)
    (h : (applyChain muts p).2.hotspot = false) :
    applyChain muts p = p ∧ p.2.hotspot = false
    ∧ ∀ (c e : Int) (l : TVal), Mut.promote p.1 c e l ∉ muts := by
  induction muts generalizing p with
  | nil => exact ⟨rfl, h, by simp⟩
  | cons m ms ih =>
    rw [applyChain_cons] at h
    obtain ⟨h1, h2, h3⟩ := ih (promoteStep m p) h
    have hstep : promoteStep m p = p := by
      cases m <;> try rfl
      rename_i i c e l
      simp only [promoteStep]
      split
      · rename_i heq
        exfalso
        revert h2
        simp [promoteStep, heq]
      · rfl
    refine ⟨?_, hstep ▸ h2, ?_⟩
    · rw [applyChain_cons, hstep]
      rw [hstep] at h1
      exact h1
    · intro c e l hm
      rcases List.mem_cons.mp hm with h4 | h4
      · have hps : (promoteStep m p).2.hotspot = true := by
          rw [← h4]
          exact promoteStep_promoted c e l p
        rw [hps] at h2
        simp at h2
      · exact h3 c e l (promoteStep_fst m p ▸ h4)

theorem mem_upsert {k : String} {doc : Mut} {sums : List (String × Mut)}
    {q : String × Mut} (h : q ∈ upsert k doc sums) : q = (k, doc) ∨ q ∈ sums := by
  induction sums with
  | nil =>
    rw [upsert] at h
    exact Or.inl (List.mem_singleton.mp h)
  | cons a t ih =>
    rw [upsert] at h
    split at h
    · rcases List.mem_cons.mp h with h1 | h1
      · exact Or.inl h1
      · exact Or.inr (List.mem_cons_of_mem _ h1)
    · rcases List.mem_cons.mp h with h1 | h1
      · exact Or.inr (h1 ▸ List.mem_cons_self _ _)
      · rcases ih h1 with h2 | h2
        · exact Or.inl h2
        · exact Or.inr (List.mem_cons_of_mem _ h2)

theorem mem_upsert_self (k : String) (doc : Mut) (sums : List (String × Mut)) :
    (k, doc) ∈ upsert k doc sums := by
  induction sums with
  | nil => exact List.mem_singleton.mpr rfl
  | cons a t ih =>
    rw [upsert]
    split
    · exact List.mem_cons_self _ _
    · exact List.mem_cons_of_mem _ ih

theorem mem_upsert_of_ne {k k0 : String} {m doc : Mut} {sums : List (String × Mut)}
    (hne : k ≠ k0) (h : (k, m) ∈ sums) : (k, m) ∈ upsert k0 doc sums := by
  induction sums with
  | nil => cases h
  | cons a t ih =>
    rw [upsert]
    split
    · rename_i heq
      rcases List.mem_cons.mp h with h1 | h1
      · exfalso
        apply hne
        rw [← heq, ← h1]
      · exact List.mem_cons_of_mem _ h1
    · rcases List.mem_cons.mp h with h1 | h1
      · exact h1 ▸ List.mem_cons_self _ _
      · exact List.mem_cons_of_mem _ (ih h1)

theorem mem_keys_upsert {k2 k : String} {doc : Mut} {sums : List (String × Mut)} :
    k2 ∈ (upsert k doc sums).map Prod.fst ↔ k2 = k ∨ k2 ∈ sums.map Prod.fst := by
  induction sums with
  | nil => simp [upsert]
  | cons a t ih =>
    rw [upsert]
    split
    · rename_i heq
      simp only [List.map_cons, List.mem_cons]
      constructor
      · rintro (h1 | h1)
        · exact Or.inl h1
        · exact Or.inr (Or.inr h1)
      · rintro (h1 | h1 | h1)
        · exact Or.inl h1
        · exact Or.inl (by rw [h1, heq])
        · exact Or.inr h1
    · simp only [List.map_cons, List.mem_cons, ih]
      constructor
      · rintro (h1 | h1 | h1)
        · exact Or.inr (Or.inl h1)
        · exact Or.inl h1
        · exact Or.inr (Or.inr h1)
      · rintro (h1 | h1 | h1)
        · exact Or.inr (Or.inl h1)
        · exact Or.inl h1
        · exact Or.inr (Or.inr h1)

theorem upsert_keys_nodup {k : String} {doc : Mut} {sums : List (String × Mut)}
    (h : (sums.map Prod.fst).Nodup) : ((upsert k doc sums).map Prod.fst).Nodup := by
  induction sums with
  | nil => simp [upsert]
  | cons a t ih =>
    rw [upsert]
    simp only [List.map_cons, List.nodup_cons] at h
    split
    · rename_i heq
      simp only [List.map_cons, List.nodup_cons]
      exact ⟨heq ▸ h.1, h.2⟩
    · rename_i hne
      simp only [List.map_cons, List.nodup_cons]
      refine ⟨?_, ih h.2⟩
      intro hmem
      rcases mem_keys_upsert.mp hmem with h1 | h1
      · exact hne h1
      · exact h.1 h1

theorem applySummary_keys_nodup {sums : List (String × Mut)} {m : Mut}
    (h : (sums.map Prod.fst).Nodup) : ((applySummary sums m).map Prod.fst).Nodup := by
  cases m <;> first | exact h | exact upsert_keys_nodup h

theorem foldl_applySummary_keys_nodup (muts : List Mut) (sums : List (String × Mut))
    (h : (sums.map Prod.fst).Nodup) :
    ((muts.foldl applySummary sums).map Prod.fst).Nodup := by
  induction muts generalizing sums with
  | nil => exact h
  | cons m ms ih => exact ih _ (applySummary_keys_nodup h)

theorem keyMem_applySummary {k : String} {sums : List (String × Mut)} {m : Mut}
    (h : ∃ v, (k, v) ∈ sums) : ∃ v, (k, v) ∈ applySummary sums m := by
  obtain ⟨v, hv⟩ := h
  cases m <;> try exact ⟨v, hv⟩
  rename_i k0 la lo rc lr cf ua
  by_cases hk : k = k0
  · subst hk
    exact ⟨_, mem_upsert_self k _ sums⟩
  · exact ⟨v, mem_upsert_of_ne hk hv⟩

theorem keyMem_foldl_applySummary {k : String} (muts : List Mut)
    (sums : List (String × Mut)) (h : ∃ v, (k, v) ∈ sums) :
    ∃ v, (k, v) ∈ muts.foldl applySummary sums := by
  induction muts generalizing sums with
  | nil => exact h
  | cons m ms ih => exact ih _ (keyMem_applySummary h)

theorem keyMem_of_upsert_mem {k : String} {la lo : Option Int} {rc : Nat}
    {lr : Option Int} {cf : ℚ} {ua : Int} (muts : List Mut)
    (sums : List (String × Mut))
    (h : Mut.upsertSummary k la lo rc lr cf ua ∈ muts) :
    ∃ v, (k, v) ∈ muts.foldl applySummary sums := by
  induction muts generalizing sums with
  | nil => cases h
  | cons m ms ih =>
    rcases List.mem_cons.mp h with h1 | h1
    · refine keyMem_foldl_applySummary ms _ ?_
      rw [← h1]
      exact ⟨_, mem_upsert_self k _ sums⟩
    · exact ih (applySummary sums m) h1

theorem mem_foldl_applySummary_nil {q : String × Mut} (muts : List Mut)
    (sums : List (String × Mut)) (h : q ∈ muts.foldl applySummary sums) :
    q ∈ sums ∨ (q.2 ∈ muts
      ∧ ∃ la lo rc lr cf ua, q.2 = Mut.upsertSummary q.1 la lo rc lr cf ua) := by
  induction muts generalizing sums with
  | nil => exact Or.inl h
  | cons m ms ih =>
    rcases ih _ h with h1 | h1
    · cases m <;> try exact Or.inl h1
      rename_i k la lo rc lr cf ua
      rcases mem_upsert h1 with h2 | h2
      · right
        refine ⟨?_, ?_⟩
        · rw [h2]
          exact List.mem_cons_self _ _
        · exact ⟨la, lo, rc, lr, cf, ua, by rw [h2]⟩
      · exact Or.inl h2
    · exact Or.inr ⟨List.mem_cons_of_mem _ h1.1, h1.2⟩

end FoldLemmas

/-- The `reportCount` carried by a summary upsert. -/
def summaryCount : Mut → Option Nat
  | .upsertSummary _ _ _ rc _ _ _ => some rc
  | _ => none

/-- A stored camera document in the state the clustering property
quantifies over: a recent, corroborated (`count > 0`), unexpired,
not-yet-hotspot mobile record with truthy coordinates, fully
normalized, whose id does not collide with the raw-report prefix. -/
def promotable (now : Int) (p : String × CamData) : Bool :=
  decide (effType p.2 = "mobile_camera")
  && !p.2.hotspot && !p.2.removed
  && (match p.2.timestamp with
      | .num t => decide (windowCutoff now ≤ t ∧ 0 < t)
      | _ => false)
  && (match p.2.count with
      | .num c => decide (0 < c)
      | _ => false)
  && decide (p.2.confidence ≠ none)
  && (match p.2.expiresAt with
      | .num e => decide (now ≤ e)
      | _ => false)
  && p.2.lastSeen.truthy && p.2.lat.truthy && p.2.lon.truthy
  && !strStartsWith p.1 "r_"

theorem promotable_spec {now : Int} {p : String × CamData}
    (h : promotable now p = true) :
    effType p.2 = "mobile_camera" ∧ p.2.hotspot = false ∧ p.2.removed = false
    ∧ (∃ t, p.2.timestamp = .num t ∧ windowCutoff now ≤ t ∧ 0 < t)
    ∧ (∃ c, p.2.count = .num c ∧ 0 < c)
    ∧ p.2.confidence ≠ none
    ∧ (∃ e, p.2.expiresAt = .num e ∧ now ≤ e)
    ∧ p.2.lastSeen.truthy = true ∧ p.2.lat.truthy = true ∧ p.2.lon.truthy = true
    ∧ strStartsWith p.1 "r_" = false := by
  rw [promotable] at h
  simp only [Bool.and_eq_true, decide_eq_true_eq, Bool.not_eq_true'] at h
  obtain ⟨⟨⟨⟨⟨⟨⟨⟨⟨⟨h1, h2⟩, h3⟩, h4⟩, h5⟩, h6⟩, h7⟩, h8⟩, h9⟩, h10⟩, h11⟩ := h
  refine ⟨h1, h2, h3, ?_, ?_, h6, ?_, h8, h9, h10, h11⟩
  · rcases hts : p.2.timestamp with t | sv | _ | _ <;> rw [hts] at h4 <;>
      simp only [decide_eq_true_eq] at h4
    · exact ⟨t, rfl, h4⟩
    · cases h4
    · cases h4
    · cases h4
  · rcases hc : p.2.count with c | sv | _ | _ <;> rw [hc] at h5 <;>
      simp only [decide_eq_true_eq] at h5
    · exact ⟨c, rfl, h5⟩
    · cases h5
    · cases h5
    · cases h5
  · rcases he : p.2.expiresAt with e | sv | _ | _ <;> rw [he] at h7 <;>
      simp only [decide_eq_true_eq] at h7
    · exact ⟨e, rfl, h7⟩
    · cases h7
    · cases h7
    · cases h7

/-- The maintenance step leaves a promotable record untouched. -/
theorem lifecycleStep_promotable_id (now cutoff : Int) (id : String) (d : CamData)
    (hnow : 0 < now) (hp : promotable now (id, d) = true) :
    lifecycleStep now cutoff id d = (d, false, []) := by
  obtain ⟨hty, hh, -, ⟨t, ht, -, ht0⟩, ⟨c, hc, hc0⟩, hconf, ⟨e, he, he0⟩, hls, -, -, -⟩ :=
    promotable_spec hp
  have htne : ¬ effType d = "fixed_camera" := by
    rw [hty]
    decide
  rw [lifecycleStep_mobile htne]
  have h4 : norm4 now (effType d) id d = (d, []) := by
    refine norm4_of_normalized ?_ hconf ?_ hls
    · rw [ht]
      simp only [TVal.truthy, bne_iff_ne, ne_eq]
      omega
    · rw [he]
      simp only [TVal.truthy, bne_iff_ne, ne_eq]
      omega
  rw [h4]
  rw [mobileTail_inactive
      (Or.inr (by rw [hc]; simp only [effCount, jsLE, decide_eq_false_iff_not]; omega))
      (Or.inr (by rw [he]; simp only [TVal.toNumber, jsLT, decide_eq_false_iff_not]; omega))]
  rfl

/-- Unfolding of one full run. -/
theorem runPass_eq (dist : Dist) (gk : GridKey) (now : Int)
    (cams reports : List (String × CamData)) (sums : List (String × Mut)) :
    runPass dist gk now cams reports sums =
      ((clusterMutsOf dist gk now (mobileDocsOf now cams reports)).foldl
          applyPromote (survivorsOf now cams),
       (clusterMutsOf dist gk now (mobileDocsOf now cams reports)).foldl
          applySummary sums,
       lifeMutsOf now cams ++
          clusterMutsOf dist gk now (mobileDocsOf now cams reports)) := rfl

theorem filterMap_eq_map_of_forall {α β : Type} {f : α → Option β} {g : α → β}
    {l : List α} (h : ∀ a ∈ l, f a = some (g a)) : l.filterMap f = l.map g := by
  induction l with
  | nil => rfl
  | cons a t ih =>
    rw [List.filterMap_cons, h a (List.mem_cons_self a t)]
    simp only [List.map_cons]
    rw [ih fun x hx => h x (List.mem_cons_of_mem a hx)]

/-- The all-zero distance oracle: every pair of points is within every
radius (a stand-in for a cluster of mutually nearby coordinates). -/
def constDist : Dist := fun _ _ _ _ => 0

/-- A grid key distinguishing the three counterexample latitudes, as
`toFixed(4)` does for points a few tens of metres apart. -/
def latKey : GridKey := fun la _ =>
  match la with
  | .num n => if n = 1 then "hs_1" else if n = 2 then "hs_2" else "hs_3"
  | _ => "hs_x"

/-- One promotable mobile record at (scaled) latitude `la`. -/
def clusterRecord (la : Int) : CamData :=
  { lat := .num la, lon := .num 1, timestamp := .num 999500000000,
    count := .num 5, confidence := some 70, expiresAt := .num 2000000000000,
    lastSeen := .num 7 }

/-- Three mutually-nearby promotable records on three distinct grid
cells. -/
def threeClusterCams : List (String × CamData) :=
  [("c1", clusterRecord 1), ("c2", clusterRecord 2), ("c3", clusterRecord 3)]

/-- Recognises a summary upsert. -/
def isUpsert : Mut → Bool
  | .upsertSummary _ _ _ _ _ _ _ => true
  | _ => false

/-- C1 counterexample: three mobile records pairwise within the radius
(distance oracle constantly `0`) and within the window, on three
distinct grid cells.  One run promotes all three, but the summary store
ends with three documents, not exactly one; and the mutation log holds
three summary upserts — every record fired as a seed, because promotion
does not update the in-memory snapshot, so no record was skipped as a
seed after the first cluster promoted it. -/
theorem cluster_single_summary_counterexample :
    ((runPass constDist latKey 1000000000000 threeClusterCams [] []).1.all
        fun p => p.2.hotspot) = true
    ∧ (runPass constDist latKey 1000000000000 threeClusterCams [] []).2.1.length = 3
    ∧ ¬ (runPass constDist latKey 1000000000000 threeClusterCams [] []).2.1.length = 1
    ∧ ((runPass constDist latKey 1000000000000 threeClusterCams [] []).2.2.countP
        isUpsert) = 3 := by
  refine ⟨?_, ?_, ?_, ?_⟩ <;> decide

/-- C1 amended: for a snapshot of `N ≥ HOTSPOT_THRESHOLD` promotable
mobile records pairwise within the hotspot radius (no raw reports), one
run marks every record `hotspot = true`; and because the promotion loop
never writes into the in-memory snapshot, every member fires as a seed,
so the summary store holds, for each member, a summary at that member's
grid key with `reportCount = N` — one summary per distinct grid key
(hence a single summary only when all members round to one cell). -/
theorem cluster_promotes_all (dist : Dist) (gk : GridKey) (now : Int)
    (cams : List (String × CamData))
    (hnow : 0 < now)
    (hall : ∀ p ∈ cams, promotable now p = true)
    (hN : HOTSPOT_THRESHOLD ≤ cams.length)
    (hdist : ∀ p ∈ cams, ∀ q ∈ cams,
      dist p.2.lat p.2.lon q.2.lat q.2.lon ≤ HOTSPOT_RADIUS_M) :
    (∀ q ∈ (runPass dist gk now cams [] []).1, q.2.hotspot = true)
    ∧ (∀ p ∈ cams, ∃ v,
        (gk p.2.lat p.2.lon, v) ∈ (runPass dist gk now cams [] []).2.1
        ∧ summaryCount v = some cams.length)
    ∧ ((runPass dist gk now cams [] []).2.1.map Prod.fst).Nodup := by
  have hstep : ∀ p ∈ cams,
      lifecycleStep now (windowCutoff now) p.1 p.2 = (p.2, false, []) := fun p hp =>
    lifecycleStep_promotable_id now _ p.1 p.2 hnow (hall p hp)
  have hstepped : steppedOf now cams =
      cams.map (fun p => (p.1, p.2, false, ([] : List Mut))) := by
    rw [steppedOf]
    exact List.map_congr_left fun p hp => by rw [hstep p hp]
  have hinmem : inMemOf now cams = cams := by
    rw [inMemOf, hstepped, List.map_map]
    have hcomp : ((fun (p : String × CamData × Bool × List Mut) => (p.1, p.2.1)) ∘
        (fun (p : String × CamData) => (p.1, p.2, false, ([] : List Mut)))) = id :=
      funext fun p => rfl
    rw [hcomp, List.map_id]
  have hsurv : survivorsOf now cams = cams := by
    rw [survivorsOf, hstepped, List.filter_map]
    have h1 : ((fun (p : String × CamData × Bool × List Mut) => !p.2.2.1) ∘
        (fun (p : String × CamData) => (p.1, p.2, false, ([] : List Mut)))) =
        fun _ => true := funext fun p => rfl
    rw [h1, List.filter_eq_self.mpr fun a _ => rfl, List.map_map]
    have h2 : ((fun (p : String × CamData × Bool × List Mut) => (p.1, p.2.1)) ∘
        (fun (p : String × CamData) => (p.1, p.2, false, ([] : List Mut)))) = id :=
      funext fun p => rfl
    rw [h2, List.map_id]
  have hfilter : ∀ p ∈ cams, camMobileFilter (windowCutoff now) p.2 = true := by
    intro p hp
    obtain ⟨hty, -, -, ⟨t, ht, htc, ht0⟩, -⟩ := promotable_spec (hall p hp)
    rw [camMobileFilter, hty, ht]
    simp only [TVal.truthy, TVal.toNumber, jsGE, Bool.and_eq_true, decide_eq_true_eq,
      bne_iff_ne, ne_eq]
    refine ⟨⟨trivial, by omega⟩, htc⟩
  have hmob : mobileDocsOf now cams [] = cams := by
    rw [mobileDocsOf, hinmem, List.filter_eq_self.mpr fun p hp => hfilter p hp]
    simp
  have hnearby : ∀ e ∈ cams, nearbyOf dist cams e.2 = cams := by
    intro e he
    rw [nearbyOf]
    refine List.filter_eq_self.mpr ?_
    intro o ho
    obtain ⟨-, -, -, ⟨t, ht, -, ht0⟩, -, -, -, -, hlat, hlon, -⟩ :=
      promotable_spec (hall o ho)
    rw [Bool.and_eq_true]
    refine ⟨?_, decide_eq_true (hdist e he o ho)⟩
    rw [nearbyOk, hlat, hlon, ht]
    simp only [TVal.truthy, Bool.and_eq_true, bne_iff_ne, ne_eq]
    exact ⟨⟨trivial, trivial⟩, by omega⟩
  have hpm : ∀ n ∈ cams, promoteMut now n = some (Mut.promote n.1
      (min 100 (jsOrInt n.2.confidence 70 + 20)) (now + PRESERVE_HOTSPOT_DAYS * MS_DAY)
      (mathMax (jsOr n.2.lastSeen (.num 0)) (jsOr n.2.timestamp (.num 0)))) := by
    intro n hn
    obtain ⟨-, -, -, -, -, -, -, -, -, -, hpre⟩ := promotable_spec (hall n hn)
    simp [promoteMut, hpre]
  have hseed : ∀ e ∈ cams, seedMuts dist gk now cams e =
      cams.filterMap (promoteMut now) ++ [summaryMut gk now e.2 cams] := by
    intro e he
    obtain ⟨-, hh, -, ⟨t, ht, -, ht0⟩, -, -, -, -, hlat, hlon, -⟩ :=
      promotable_spec (hall e he)
    have hb : (e.2.lat.truthy && e.2.lon.truthy && e.2.timestamp.truthy) = true := by
      rw [hlat, hlon, ht]
      simp only [TVal.truthy, Bool.and_eq_true, bne_iff_ne, ne_eq]
      exact ⟨⟨trivial, trivial⟩, by omega⟩
    rw [seedMuts, hnearby e he]
    simp [hb, hh, hN]
  have hcm : clusterMutsOf dist gk now cams =
      (cams.map (fun e => cams.filterMap (promoteMut now)
        ++ [summaryMut gk now e.2 cams])).flatten := by
    rw [clusterMutsOf]
    congr 1
    exact List.map_congr_left fun e he => hseed e he
  have hpromem : ∀ p ∈ cams,
      ∃ c x l, Mut.promote p.1 c x l ∈ clusterMutsOf dist gk now cams := by
    intro p hp
    refine ⟨min 100 (jsOrInt p.2.confidence 70 + 20),
      now + PRESERVE_HOTSPOT_DAYS * MS_DAY,
      mathMax (jsOr p.2.lastSeen (.num 0)) (jsOr p.2.timestamp (.num 0)), ?_⟩
    rw [hcm, List.mem_flatten]
    refine ⟨cams.filterMap (promoteMut now) ++ [summaryMut gk now p.2 cams],
      List.mem_map_of_mem _ hp, List.mem_append_left _ ?_⟩
    exact List.mem_filterMap.mpr ⟨p, hp, hpm p hp⟩
  have hupsmem : ∀ p ∈ cams,
      summaryMut gk now p.2 cams ∈ clusterMutsOf dist gk now cams := by
    intro p hp
    rw [hcm, List.mem_flatten]
    exact ⟨cams.filterMap (promoteMut now) ++ [summaryMut gk now p.2 cams],
      List.mem_map_of_mem _ hp,
      List.mem_append_right _ (List.mem_singleton.mpr rfl)⟩
  have hupsonly : ∀ m ∈ clusterMutsOf dist gk now cams,
      ∀ k la lo rc lr cf ua, m = Mut.upsertSummary k la lo rc lr cf ua →
        rc = cams.length := by
    intro m hm k la lo rc lr cf ua hmeq
    rw [hcm, List.mem_flatten] at hm
    obtain ⟨ms, hms, hmm⟩ := hm
    obtain ⟨e, he, rfl⟩ := List.mem_map.mp hms
    rcases List.mem_append.mp hmm with h1 | h1
    · obtain ⟨n, hn, hpn⟩ := List.mem_filterMap.mp h1
      rw [hpm n hn] at hpn
      injection hpn with hpn
      rw [hmeq] at hpn
      cases hpn
    · rw [List.mem_singleton] at h1
      rw [h1, summaryMut] at hmeq
      injection hmeq with i1 i2 i3 i4 i5 i6 i7
      exact i4.symm
  have hfold1 : (runPass dist gk now cams [] []).1 =
      cams.map (applyChain (clusterMutsOf dist gk now cams)) := by
    rw [runPass_eq]
    show (clusterMutsOf dist gk now (mobileDocsOf now cams [])).foldl
        applyPromote (survivorsOf now cams) = _
    rw [hmob, hsurv, foldl_applyPromote_eq_map]
  have hfold2 : (runPass dist gk now cams [] []).2.1 =
      (clusterMutsOf dist gk now cams).foldl applySummary [] := by
    rw [runPass_eq]
    show (clusterMutsOf dist gk now (mobileDocsOf now cams [])).foldl
        applySummary [] = _
    rw [hmob]
  refine ⟨?_, ?_, ?_⟩
  · intro q hq
    rw [hfold1] at hq
    obtain ⟨p, hp, rfl⟩ := List.mem_map.mp hq
    exact applyChain_promoted _ _ (hpromem p hp)
  · intro p hp
    have hu := hupsmem p hp
    rw [summaryMut] at hu
    obtain ⟨v, hv⟩ :=
      keyMem_of_upsert_mem (clusterMutsOf dist gk now cams) [] hu
    refine ⟨v, by rw [hfold2]; exact hv, ?_⟩
    rcases mem_foldl_applySummary_nil _ _ hv with h0 | ⟨hvmem, la, lo, rc, lr, cf, ua, hshape⟩
    · cases h0
    · have hshape2 : v = Mut.upsertSummary (gk p.2.lat p.2.lon) la lo rc lr cf ua := hshape
      have hrc := hupsonly v hvmem _ la lo rc lr cf ua hshape2
      rw [hshape2]
      simp only [summaryCount]
      rw [hrc]
  · rw [hfold2]
    exact foldl_applySummary_keys_nodup _ _ (by simp)

/-- Witness for `cluster_promotes_all` at the three-record snapshot:
the summary store ends with nodup grid keys. -/
theorem cluster_promotes_all_witness :
    ((runPass constDist latKey 1000000000000 threeClusterCams [] []).2.1.map
      Prod.fst).Nodup :=
  (cluster_promotes_all constDist latKey 1000000000000 threeClusterCams
    (by decide) (by decide) (by decide) (by decide)).2.2

/-- A stored record whose dynamic fields have the shapes the repeated
runs rely on: `timestamp` a positive epoch number or absent, `lastSeen`
a number or absent, and an id that does not collide with the raw-report
prefix.  (Without these, normalization can compute a falsy default --
e.g. `timestamp = -lifetime` makes the computed `expiresAt` equal `0`
-- or the promotion write can store `NaN`, and the second run writes
again.) -/
def wellFormedRec (p : String × CamData) : Bool :=
  (match p.2.timestamp with
   | .num t => decide (0 < t)
   | .missing => true
   | _ => false)
  && (match p.2.lastSeen with
      | .num _ => true
      | .missing => true
      | _ => false)
  && !strStartsWith p.1 "r_"

theorem wellFormedRec_spec {p : String × CamData} (h : wellFormedRec p = true) :
    (p.2.timestamp = .missing ∨ ∃ t, p.2.timestamp = .num t ∧ 0 < t)
    ∧ (p.2.lastSeen = .missing ∨ ∃ z, p.2.lastSeen = .num z)
    ∧ strStartsWith p.1 "r_" = false := by
  rw [wellFormedRec] at h
  simp only [Bool.and_eq_true, Bool.not_eq_true'] at h
  obtain ⟨⟨h1, h2⟩, h3⟩ := h
  refine ⟨?_, ?_, h3⟩
  · rcases hts : p.2.timestamp with t | sv | _ | _ <;> rw [hts] at h1 <;>
      simp only [decide_eq_true_eq] at h1
    · exact Or.inr ⟨t, rfl, h1⟩
    · cases h1
    · cases h1
    · exact Or.inl rfl
  · rcases hls : p.2.lastSeen with z | sv | _ | _ <;> rw [hls] at h2
    · exact Or.inr ⟨z, rfl⟩
    · cases h2
    · cases h2
    · exact Or.inl rfl

theorem norm2_timestamp {now : Int} {ty id : String} {d : CamData} :
    (norm2 now ty id d).1.timestamp =
      if d.timestamp.truthy then d.timestamp else .num now := by
  simp only [norm2, normTimestamp, normConfidence]
  split_ifs <;> simp_all

theorem norm2_confidence_ne_none {now : Int} {ty id : String} {d : CamData} :
    (norm2 now ty id d).1.confidence ≠ none := by
  simp only [norm2, normTimestamp, normConfidence]
  split_ifs <;> simp_all

theorem norm4_confidence_ne_none {now : Int} {ty id : String} {d : CamData} :
    (norm4 now ty id d).1.confidence ≠ none := by
  simp only [norm4, norm2, normTimestamp, normConfidence, normExpires, normLastSeen]
  split_ifs <;> simp_all

theorem norm4_expiresAt_char {now : Int} {ty id : String} {d : CamData} :
    (norm4 now ty id d).1.expiresAt =
      if d.expiresAt.truthy then d.expiresAt
      else .num (numOr (if d.timestamp.truthy then d.timestamp else .num now) now +
        (if ty = "other" then OTHER_EXPIRE_HOURS else MOBILE_EXPIRE_HOURS) * MS_HOUR) := by
  simp only [norm4, norm2, normTimestamp, normConfidence, normExpires, normLastSeen]
  split_ifs <;> simp_all

theorem norm4_lastSeen_char {now : Int} {ty id : String} {d : CamData} :
    (norm4 now ty id d).1.lastSeen =
      if d.lastSeen.truthy then d.lastSeen
      else jsOr (if d.timestamp.truthy then d.timestamp else .num now) (.num now) := by
  simp only [norm4, norm2, normTimestamp, normConfidence, normExpires, normLastSeen]
  split_ifs <;> simp_all

theorem fixedTail_hotspot {now : Int} {id : String} {d : CamData} :
    (fixedTail now id d).1.hotspot = true := by
  simp only [fixedTail]
  cases hh : d.hotspot <;> split_ifs <;> simp_all

theorem fixedTail_preserves {now : Int} {id : String} {d : CamData} :
    (fixedTail now id d).1.type = d.type ∧ (fixedTail now id d).1.lat = d.lat
    ∧ (fixedTail now id d).1.lon = d.lon
    ∧ (fixedTail now id d).1.timestamp = d.timestamp
    ∧ (fixedTail now id d).1.count = d.count
    ∧ (fixedTail now id d).1.confidence = d.confidence
    ∧ (fixedTail now id d).1.expiresAt = d.expiresAt := by
  simp only [fixedTail]
  cases hh : d.hotspot <;> split_ifs <;> simp_all

theorem fixedTail_removed_cases {now : Int} {id : String} {d : CamData} :
    (fixedTail now id d).1.removed = true
    ∨ ((fixedTail now id d).1.removed = d.removed
       ∧ (jsLE (effCount d.count) FIXED_REMOVE_THRESHOLD && !d.removed) = false) := by
  simp only [fixedTail]
  cases hh : d.hotspot <;> split_ifs <;> simp_all

theorem mobileTail_lastSeen_cases {now cutoff : Int} {id : String} {d : CamData} :
    (mobileTail now cutoff id d).1.lastSeen = d.lastSeen
    ∨ (mobileTail now cutoff id d).1.lastSeen = .num now := by
  simp only [mobileTail, hideOrDelete]
  split_ifs <;> simp_all

theorem mobileTail_expiresAt_cases {now cutoff : Int} {id : String} {d : CamData} :
    (mobileTail now cutoff id d).1.expiresAt = d.expiresAt
    ∨ (mobileTail now cutoff id d).1.expiresAt =
        .num (now + PRESERVE_HOTSPOT_DAYS * MS_DAY) := by
  simp only [mobileTail, hideOrDelete]
  split_ifs <;> simp_all

theorem mobileTail_preserves {now cutoff : Int} {id : String} {d : CamData} :
    (mobileTail now cutoff id d).1.type = d.type
    ∧ (mobileTail now cutoff id d).1.lat = d.lat
    ∧ (mobileTail now cutoff id d).1.lon = d.lon
    ∧ (mobileTail now cutoff id d).1.timestamp = d.timestamp
    ∧ (mobileTail now cutoff id d).1.count = d.count
    ∧ (mobileTail now cutoff id d).1.hotspot = d.hotspot
    ∧ (mobileTail now cutoff id d).1.confidence = d.confidence := by
  simp only [mobileTail, hideOrDelete]
  split_ifs <;> simp_all

/-- `effType` only reads the `type` field. -/
theorem effType_congr {x y : CamData} (h : x.type = y.type) : effType x = effType y := by
  rw [effType, effType, h]

/-- A mobile/other record on which a re-run of the maintenance step is
a no-op: fully normalized, and every hide/delete/extend condition
either fails or was already materialised. -/
theorem mobile_silent_criteria (now cutoff : Int) (id : String) (x : CamData)
    (hty : ¬ effType x = "fixed_camera")
    (ht : ∃ T, x.timestamp = .num T ∧ T ≠ 0)
    (hc : x.confidence ≠ none)
    (he : x.expiresAt.truthy = true)
    (hl : x.lastSeen.truthy = true)
    (h6 : x.hotspot = false → jsLE (effCount x.count) 0 = true →
      (∃ T, x.timestamp = .num T ∧ cutoff ≤ T) ∧ x.removed = true)
    (h7 : x.hotspot = false → jsLT x.expiresAt.toNumber now = true →
      (∃ T, x.timestamp = .num T ∧ cutoff ≤ T) ∧ x.removed = true)
    (h8 : x.hotspot = true → jsLT x.expiresAt.toNumber now = false) :
    lifecycleStep now cutoff id x = (x, false, []) := by
  obtain ⟨T, hT, hT0⟩ := ht
  rw [lifecycleStep_mobile hty,
    norm4_of_normalized (by rw [hT]; simpa [TVal.truthy] using hT0) hc he hl]
  by_cases hh : x.hotspot
  · rw [mobileTail_inactive (Or.inl hh) (Or.inr (h8 hh))]
    rfl
  · have hh2 : x.hotspot = false := by simpa using hh
    by_cases hcnt : jsLE (effCount x.count) 0 = true
    · obtain ⟨⟨T2, hT2, hT2c⟩, hrem⟩ := h6 hh2 hcnt
      rw [mobileTail_count_branch hh2 hcnt,
        hideOrDelete_recent_marked (by rw [hT2]; simp [TVal.toNumber]; omega) hrem]
      rfl
    · by_cases hlt : jsLT x.expiresAt.toNumber now = true
      · obtain ⟨⟨T2, hT2, hT2c⟩, hrem⟩ := h7 hh2 hlt
        rw [mobileTail_expired_nonhot hh2 (by simpa using hcnt) he hlt,
          hideOrDelete_recent_marked (by rw [hT2]; simp [TVal.toNumber]; omega) hrem]
        rfl
      · rw [mobileTail_inactive (Or.inr (by simpa using hcnt))
          (Or.inr (by simpa using hlt))]
        rfl

/-- A fixed camera on which a re-run of the maintenance step is a
no-op. -/
theorem fixed_silent_criteria (now cutoff : Int) (id : String) (x : CamData)
    (hty : effType x = "fixed_camera")
    (ht : ∃ T, x.timestamp = .num T ∧ T ≠ 0)
    (hc : x.confidence ≠ none)
    (hh : x.hotspot = true)
    (hcond : (jsLE (effCount x.count) FIXED_REMOVE_THRESHOLD && !x.removed) = false) :
    lifecycleStep now cutoff id x = (x, false, []) := by
  obtain ⟨T, hT, hT0⟩ := ht
  rw [lifecycleStep_fixed hty,
    norm2_of_normalized (by rw [hT]; simpa [TVal.truthy] using hT0) hc,
    fixedTail_of_hot_quiet hh hcond]
  rfl

/-- The data shape of a surviving maintenance-step output of a
well-formed record: positive numeric timestamp; numeric lastSeen on the
mobile path; for fixed outputs, hotspot set and the removal condition
discharged. -/
theorem step_output_facts (now cutoff : Int) (id : String) (d : CamData)
    (hnow : 0 < now)
    (hwts : d.timestamp = .missing ∨ ∃ t, d.timestamp = .num t ∧ 0 < t)
    (hwls : d.lastSeen = .missing ∨ ∃ z, d.lastSeen = .num z)
    (hnd : (lifecycleStep now cutoff id d).2.1 = false) :
    (∃ T, (lifecycleStep now cutoff id d).1.timestamp = .num T ∧ 0 < T)
    ∧ (lifecycleStep now cutoff id d).1.type = d.type
    ∧ (lifecycleStep now cutoff id d).1.confidence ≠ none
    ∧ (effType (lifecycleStep now cutoff id d).1 = "fixed_camera" →
        (lifecycleStep now cutoff id d).1.hotspot = true
        ∧ (jsLE (effCount (lifecycleStep now cutoff id d).1.count)
            FIXED_REMOVE_THRESHOLD
            && !(lifecycleStep now cutoff id d).1.removed) = false)
    ∧ (¬ effType (lifecycleStep now cutoff id d).1 = "fixed_camera" →
        (∃ z, (lifecycleStep now cutoff id d).1.lastSeen = .num z ∧ z ≠ 0)
        ∧ (lifecycleStep now cutoff id d).1.expiresAt.truthy = true) := by
  have htsnum : ∀ ty2, ∃ T, (norm4 now ty2 id d).1.timestamp = .num T ∧ 0 < T := by
    intro ty2
    rw [norm4_timestamp]
    rcases hwts with h | ⟨t, h, h0⟩ <;> rw [h]
    · exact ⟨now, by simp [TVal.truthy], hnow⟩
    · exact ⟨t, by simp [TVal.truthy]; omega, h0⟩
  have hts2 : ∃ T, (norm2 now "fixed_camera" id d).1.timestamp = .num T ∧ 0 < T := by
    rw [norm2_timestamp]
    rcases hwts with h | ⟨t, h, h0⟩ <;> rw [h]
    · exact ⟨now, by simp [TVal.truthy], hnow⟩
    · exact ⟨t, by simp [TVal.truthy]; omega, h0⟩
  by_cases hty : effType d = "fixed_camera"
  · rw [lifecycleStep_fixed hty]
    dsimp only
    obtain ⟨hp1, -, -, hp4, hp5, hp6, -⟩ :=
      @fixedTail_preserves now id (norm2 now "fixed_camera" id d).1
    obtain ⟨hq1, -, -, hq4, -, -, hq7, -, -⟩ :=
      @norm2_preserves now "fixed_camera" id d
    have htyp : (fixedTail now id (norm2 now "fixed_camera" id d).1).1.type = d.type := by
      rw [hp1, hq1]
    refine ⟨?_, htyp, ?_, ?_, ?_⟩
    · obtain ⟨T, hT, hT0⟩ := hts2
      exact ⟨T, by rw [hp4, hT], hT0⟩
    · rw [hp6]
      exact norm2_confidence_ne_none
    · intro _
      refine ⟨fixedTail_hotspot, ?_⟩
      rcases @fixedTail_removed_cases now id (norm2 now "fixed_camera" id d).1 with h | ⟨h1, h2⟩
      · rw [h]
        simp
      · rw [h1, hp5, hq4, hq7]
        rw [hq4, hq7] at h2
        exact h2
    · intro hne
      exfalso
      apply hne
      rw [effType_congr htyp]
      exact hty
  · rw [lifecycleStep_mobile hty]
    dsimp only
    obtain ⟨hp1, -, -, hp4, -, -, hp7⟩ :=
      @mobileTail_preserves now cutoff id (norm4 now (effType d) id d).1
    obtain ⟨hq1, -, -, -, -, -, -⟩ := @norm4_preserves now (effType d) id d
    have htyp : (mobileTail now cutoff id (norm4 now (effType d) id d).1).1.type = d.type := by
      rw [hp1, hq1]
    refine ⟨?_, htyp, ?_, ?_, ?_⟩
    · obtain ⟨T, hT, hT0⟩ := htsnum (effType d)
      exact ⟨T, by rw [hp4, hT], hT0⟩
    · rw [hp7]
      exact norm4_confidence_ne_none
    · intro hfix
      exfalso
      apply hty
      rw [← effType_congr htyp]
      exact hfix
    · intro _
      have hL : (if effType d = "other" then OTHER_EXPIRE_HOURS else MOBILE_EXPIRE_HOURS)
          = (10 : Int) := by
        split_ifs <;> rfl
      have hms : MS_HOUR = 3600000 := by decide
      have hd4l : ∃ z, (norm4 now (effType d) id d).1.lastSeen = .num z ∧ z ≠ 0 := by
        rw [norm4_lastSeen_char]
        by_cases hlt : d.lastSeen.truthy
        · rcases hwls with h | ⟨z, hz⟩
          · rw [h] at hlt
            cases hlt
          · refine ⟨z, ?_, ?_⟩
            · rw [if_pos hlt]
              exact hz
            · rw [hz] at hlt
              simpa [TVal.truthy] using hlt
        · rw [if_neg hlt]
          rcases hwts with h | ⟨t, h, h0⟩ <;> rw [h]
          · have hnr : (TVal.num now).truthy = true := by simp [TVal.truthy]; omega
            refine ⟨now, ?_, by omega⟩
            rw [if_neg (by simp [TVal.truthy]), jsOr, if_pos hnr]
          · have htr : (TVal.num t).truthy = true := by simp [TVal.truthy]; omega
            refine ⟨t, ?_, by omega⟩
            rw [if_pos htr, jsOr, if_pos htr]
      have hd4e : (norm4 now (effType d) id d).1.expiresAt.truthy = true := by
        rw [norm4_expiresAt_char, hL]
        by_cases he : d.expiresAt.truthy
        · rw [if_pos he]
          exact he
        · rw [if_neg he]
          rcases hwts with h | ⟨t, h, h0⟩ <;> rw [h]
          · rw [if_neg (by simp [TVal.truthy])]
            simp only [numOr, TVal.toNumber]
            rw [if_neg (by omega)]
            simp only [TVal.truthy, bne_iff_ne, ne_eq, decide_eq_true_eq, hms]
            omega
          · have htr : (TVal.num t).truthy = true := by simp [TVal.truthy]; omega
            rw [if_pos htr]
            simp only [numOr, TVal.toNumber]
            rw [if_neg (by omega)]
            simp only [TVal.truthy, bne_iff_ne, ne_eq, decide_eq_true_eq, hms]
            omega
      constructor
      · obtain ⟨z, hz, hz0⟩ := hd4l
        rcases @mobileTail_lastSeen_cases now cutoff id (norm4 now (effType d) id d).1
          with h | h
        · exact ⟨z, by rw [h, hz], hz0⟩
        · exact ⟨now, by rw [h], by omega⟩
      · rcases @mobileTail_expiresAt_cases now cutoff id (norm4 now (effType d) id d).1
          with h | h
        · rw [h]
          exact hd4e
        · rw [h]
          simp only [TVal.truthy, bne_iff_ne, ne_eq, decide_eq_true_eq]
          norm_num [PRESERVE_HOTSPOT_DAYS, MS_DAY]
          omega

/-- A surviving hide-or-delete output re-evaluates to a no-op. -/
theorem hideOrDelete_output_silent (now cutoff : Int) (id : String) (d4 : CamData)
    (hty4 : ¬ effType d4 = "fixed_camera")
    (ht : ∃ T, d4.timestamp = .num T ∧ 0 < T)
    (hc : d4.confidence ≠ none)
    (he : d4.expiresAt.truthy = true)
    (hl : ∃ z, d4.lastSeen = .num z ∧ z ≠ 0)
    (hh : d4.hotspot = false)
    (hnow : 0 < now)
    (hnd : (hideOrDelete now cutoff id d4).2.1 = false) :
    lifecycleStep now cutoff id (hideOrDelete now cutoff id d4).1 =
      ((hideOrDelete now cutoff id d4).1, false, []) := by
  obtain ⟨T, hT, hT0⟩ := ht
  obtain ⟨z, hz, hz0⟩ := hl
  by_cases hts : (d4.timestamp.toNumber).getD 0 < cutoff
  · rw [hideOrDelete_old hts] at hnd
    simp at hnd
  · have hTc : cutoff ≤ T := by
      rw [hT] at hts
      simp only [TVal.toNumber, Option.getD_some] at hts
      omega
    by_cases hrem : d4.removed
    · rw [hideOrDelete_recent_marked hts hrem]
      apply mobile_silent_criteria now cutoff id d4 hty4 ⟨T, hT, by omega⟩ hc he
        (by rw [hz]; simp [TVal.truthy]; omega)
      · exact fun _ _ => ⟨⟨T, hT, hTc⟩, hrem⟩
      · exact fun _ _ => ⟨⟨T, hT, hTc⟩, hrem⟩
      · intro h8
        exact absurd (hh.symm.trans h8) (by decide)
    · rw [hideOrDelete_recent_unmarked hts (by simpa using hrem)]
      apply mobile_silent_criteria now cutoff id
        { d4 with removed := true, removedByWorker := true, lastSeen := .num now }
      · exact hty4
      · exact ⟨T, hT, by omega⟩
      · exact hc
      · exact he
      · show (TVal.num now).truthy = true
        simp [TVal.truthy]
        omega
      · exact fun _ _ => ⟨⟨T, hT, hTc⟩, rfl⟩
      · exact fun _ _ => ⟨⟨T, hT, hTc⟩, rfl⟩
      · intro h8
        exact absurd (hh.symm.trans h8) (by decide)

/-- Re-running the maintenance step on the surviving output of a
well-formed record is a no-op. -/
theorem step_output_silent (now cutoff : Int) (id : String) (d : CamData)
    (hnow : 0 < now)
    (hwts : d.timestamp = .missing ∨ ∃ t, d.timestamp = .num t ∧ 0 < t)
    (hwls : d.lastSeen = .missing ∨ ∃ z, d.lastSeen = .num z)
    (hnd : (lifecycleStep now cutoff id d).2.1 = false) :
    lifecycleStep now cutoff id (lifecycleStep now cutoff id d).1 =
      ((lifecycleStep now cutoff id d).1, false, []) := by
  by_cases hty : effType d = "fixed_camera"
  · rw [lifecycleStep_fixed hty]
    dsimp only
    obtain ⟨hp1, -, -, hp4, hp5, hp6, -⟩ :=
      @fixedTail_preserves now id (norm2 now "fixed_camera" id d).1
    obtain ⟨hq1, -, -, hq4, -, -, hq7, -, -⟩ := @norm2_preserves now "fixed_camera" id d
    have hts2 : ∃ T, (norm2 now "fixed_camera" id d).1.timestamp = .num T ∧ 0 < T := by
      rw [norm2_timestamp]
      rcases hwts with h | ⟨t, h, h0⟩ <;> rw [h]
      · exact ⟨now, by simp [TVal.truthy], hnow⟩
      · exact ⟨t, by simp [TVal.truthy]; omega, h0⟩
    apply fixed_silent_criteria
    · rw [effType_congr (hp1.trans hq1)]
      exact hty
    · obtain ⟨T, hT, hT0⟩ := hts2
      exact ⟨T, by rw [hp4]; exact hT, by omega⟩
    · rw [hp6]
      exact norm2_confidence_ne_none
    · exact fixedTail_hotspot
    · rcases @fixedTail_removed_cases now id (norm2 now "fixed_camera" id d).1 with h | ⟨h1, h2⟩
      · rw [h]
        simp
      · rw [h1, hp5]
        exact h2
  · rw [lifecycleStep_mobile hty] at hnd ⊢
    dsimp only at hnd ⊢
    obtain ⟨hq1, -, -, -, -, -, -⟩ := @norm4_preserves now (effType d) id d
    have hty4 : ¬ effType (norm4 now (effType d) id d).1 = "fixed_camera" := by
      rw [effType_congr hq1]
      exact hty
    have hd4t : ∃ T, (norm4 now (effType d) id d).1.timestamp = .num T ∧ 0 < T := by
      rw [norm4_timestamp]
      rcases hwts with h | ⟨t, h, h0⟩ <;> rw [h]
      · exact ⟨now, by simp [TVal.truthy], hnow⟩
      · exact ⟨t, by simp [TVal.truthy]; omega, h0⟩
    have hd4c : (norm4 now (effType d) id d).1.confidence ≠ none := norm4_confidence_ne_none
    have hL : (if effType d = "other" then OTHER_EXPIRE_HOURS else MOBILE_EXPIRE_HOURS)
        = (10 : Int) := by
      split_ifs <;> rfl
    have hms : MS_HOUR = 3600000 := by decide
    have hmd : MS_DAY = 86400000 := by decide
    have hpd : PRESERVE_HOTSPOT_DAYS = (10 : Int) := rfl
    have hd4e : (norm4 now (effType d) id d).1.expiresAt.truthy = true := by
      rw [norm4_expiresAt_char, hL]
      by_cases he : d.expiresAt.truthy
      · rw [if_pos he]
        exact he
      · rw [if_neg he]
        rcases hwts with h | ⟨t, h, h0⟩ <;> rw [h]
        · rw [if_neg (by simp [TVal.truthy])]
          simp only [numOr, TVal.toNumber]
          rw [if_neg (by omega)]
          simp only [TVal.truthy, bne_iff_ne, ne_eq, decide_eq_true_eq, hms]
          omega
        · have htr : (TVal.num t).truthy = true := by simp [TVal.truthy]; omega
          rw [if_pos htr]
          simp only [numOr, TVal.toNumber]
          rw [if_neg (by omega)]
          simp only [TVal.truthy, bne_iff_ne, ne_eq, decide_eq_true_eq, hms]
          omega
    have hd4l : ∃ z, (norm4 now (effType d) id d).1.lastSeen = .num z ∧ z ≠ 0 := by
      rw [norm4_lastSeen_char]
      by_cases hlt : d.lastSeen.truthy
      · rcases hwls with h | ⟨z, hz⟩
        · rw [h] at hlt
          cases hlt
        · refine ⟨z, ?_, ?_⟩
          · rw [if_pos hlt]
            exact hz
          · rw [hz] at hlt
            simpa [TVal.truthy] using hlt
      · rw [if_neg hlt]
        rcases hwts with h | ⟨t, h, h0⟩ <;> rw [h]
        · have hnr : (TVal.num now).truthy = true := by simp [TVal.truthy]; omega
          refine ⟨now, ?_, by omega⟩
          rw [if_neg (by simp [TVal.truthy]), jsOr, if_pos hnr]
        · have htr : (TVal.num t).truthy = true := by simp [TVal.truthy]; omega
          refine ⟨t, ?_, by omega⟩
          rw [if_pos htr, jsOr, if_pos htr]
    by_cases hh : (norm4 now (effType d) id d).1.hotspot
    · by_cases hlt : jsLT (norm4 now (effType d) id d).1.expiresAt.toNumber now = true
      · rw [mobileTail_expired_hot hh hd4e hlt]
        dsimp only
        obtain ⟨T, hT, hT0⟩ := hd4t
        apply mobile_silent_criteria now cutoff id
          { (norm4 now (effType d) id d).1 with
            expiresAt := TVal.num (now + PRESERVE_HOTSPOT_DAYS * MS_DAY),
            lastSeen := TVal.num now }
        · exact hty4
        · exact ⟨T, hT, by omega⟩
        · exact hd4c
        · show (TVal.num (now + PRESERVE_HOTSPOT_DAYS * MS_DAY)).truthy = true
          simp only [TVal.truthy, bne_iff_ne, ne_eq, decide_eq_true_eq, hpd, hmd]
          omega
        · show (TVal.num now).truthy = true
          simp [TVal.truthy]
          omega
        · intro h6
          exact absurd (hh.symm.trans h6) (by decide)
        · intro h7
          exact absurd (hh.symm.trans h7) (by decide)
        · intro _
          show jsLT (TVal.num (now + PRESERVE_HOTSPOT_DAYS * MS_DAY)).toNumber now = false
          simp only [TVal.toNumber, jsLT, decide_eq_false_iff_not, hpd, hmd]
          omega
      · rw [mobileTail_inactive (Or.inl hh) (Or.inr (by simpa using hlt))]
        dsimp only
        obtain ⟨T, hT, hT0⟩ := hd4t
        apply mobile_silent_criteria now cutoff id _ hty4 ⟨T, hT, by omega⟩ hd4c hd4e
          (by obtain ⟨z, hz, hz0⟩ := hd4l; rw [hz]; simp [TVal.truthy]; omega)
        · intro h6 _
          exact absurd (hh.symm.trans h6) (by decide)
        · intro h7 _
          exact absurd (hh.symm.trans h7) (by decide)
        · intro _
          simpa using hlt
    · have hh2 : (norm4 now (effType d) id d).1.hotspot = false := by simpa using hh
      by_cases hcnt : jsLE (effCount (norm4 now (effType d) id d).1.count) 0 = true
      · rw [mobileTail_count_branch hh2 hcnt] at hnd ⊢
        exact hideOrDelete_output_silent now cutoff id _ hty4 hd4t hd4c hd4e hd4l hh2 hnow hnd
      · by_cases hlt : jsLT (norm4 now (effType d) id d).1.expiresAt.toNumber now = true
        · rw [mobileTail_expired_nonhot hh2 (by simpa using hcnt) hd4e hlt] at hnd ⊢
          exact hideOrDelete_output_silent now cutoff id _ hty4 hd4t hd4c hd4e hd4l hh2 hnow hnd
        · rw [mobileTail_inactive (Or.inr (by simpa using hcnt)) (Or.inr (by simpa using hlt))]
          dsimp only
          obtain ⟨T, hT, hT0⟩ := hd4t
          apply mobile_silent_criteria now cutoff id _ hty4 ⟨T, hT, by omega⟩ hd4c hd4e
            (by obtain ⟨z, hz, hz0⟩ := hd4l; rw [hz]; simp [TVal.truthy]; omega)
          · intro _ hc6
            rw [hc6] at hcnt
            cases hcnt rfl
          · intro _ hc7
            rw [hc7] at hlt
            cases hlt rfl
          · intro hfalse
            exact absurd (hfalse.symm.trans hh2) (by decide)

theorem promoteStep_of_no_target (m : Mut) (q : String × CamData)
    (h : ∀ (c e : Int) (l : TVal), m ≠ Mut.promote q.1 c e l) :
    promoteStep m q = q := by
  cases m <;> try rfl
  rename_i i c e l
  simp only [promoteStep]
  split
  · rename_i heq
    exact absurd (by rw [heq]) (h c e l)
  · rfl

theorem applyChain_of_no_promote (muts : List Mut) (q : String × CamData)
    (h : ∀ (c e : Int) (l : TVal), Mut.promote q.1 c e l ∉ muts) :
    applyChain muts q = q := by
  induction muts generalizing q with
  | nil => rfl
  | cons m ms ih =>
    rw [applyChain_cons]
    have hstep : promoteStep m q = q := by
      refine promoteStep_of_no_target m q ?_
      intro c e l heq
      exact h c e l (heq ▸ List.mem_cons_self _ _)
    rw [hstep]
    exact ih q fun c e l hm => h c e l (List.mem_cons_of_mem _ hm)

theorem promoteStep_cases (m : Mut) (q : String × CamData) :
    promoteStep m q = q
    ∨ ∃ c e l, m = Mut.promote q.1 c e l ∧ promoteStep m q =
        (q.1, { q.2 with hotspot := true, confidence := some c,
                         expiresAt := .num e, lastSeen := l }) := by
  cases m <;> try exact Or.inl rfl
  rename_i i c e l
  by_cases hq : q.1 = i
  · subst hq
    exact Or.inr ⟨c, e, l, rfl, by simp [promoteStep]⟩
  · exact Or.inl (by simp [promoteStep, hq])

theorem applyChain_of_promoted (muts : List Mut) (q : String × CamData)
    (h : ∃ c e l, Mut.promote q.1 c e l ∈ muts) :
    ∃ c e l, Mut.promote q.1 c e l ∈ muts ∧
      applyChain muts q = (q.1, { q.2 with hotspot := true, confidence := some c,
                                           expiresAt := .num e, lastSeen := l }) := by
  induction muts generalizing q with
  | nil =>
    obtain ⟨c, e, l, hm⟩ := h
    cases hm
  | cons m ms ih =>
    by_cases hms : ∃ c e l, Mut.promote q.1 c e l ∈ ms
    · have hfst : (promoteStep m q).1 = q.1 := promoteStep_fst m q
      obtain ⟨c, e, l, hm, hres⟩ := ih (promoteStep m q) (by
        obtain ⟨c, e, l, hm⟩ := hms
        exact ⟨c, e, l, by rw [hfst]; exact hm⟩)
      rw [hfst] at hm
      refine ⟨c, e, l, List.mem_cons_of_mem _ hm, ?_⟩
      rw [applyChain_cons, hres, hfst]
      rcases promoteStep_cases m q with h1 | ⟨c2, e2, l2, -, h2⟩
      · rw [h1]
      · rw [h2]
    · obtain ⟨c, e, l, hm⟩ := h
      rcases List.mem_cons.mp hm with h1 | h1
      · refine ⟨c, e, l, hm, ?_⟩
        rw [applyChain_cons, ← h1]
        rw [show promoteStep (Mut.promote q.1 c e l) q =
          (q.1, { q.2 with hotspot := true, confidence := some c,
                           expiresAt := TVal.num e, lastSeen := l }) from by
            simp [promoteStep]]
        refine applyChain_of_no_promote ms _ ?_
        intro c2 e2 l2 hm2
        exact hms ⟨c2, e2, l2, hm2⟩
      · exact absurd ⟨c, e, l, h1⟩ hms


theorem mobileDocsOf_nil (now : Int) (cams : List (String × CamData)) :
    mobileDocsOf now cams [] =
      (inMemOf now cams).filter (fun c => camMobileFilter (windowCutoff now) c.2) := by
  simp [mobileDocsOf]

theorem camMobileFilter_applyChain (cutoff : Int) (muts : List Mut)
    (q : String × CamData) :
    camMobileFilter cutoff (applyChain muts q).2 = camMobileFilter cutoff q.2 := by
  obtain ⟨-, -, h3, h4, -, -, -⟩ := applyChain_geo muts q
  rw [camMobileFilter, camMobileFilter, h3, effType_congr h4]

theorem nearbyOk_applyChain (muts : List Mut) (q : String × CamData) :
    nearbyOk (applyChain muts q).2 = nearbyOk q.2 := by
  obtain ⟨h1, h2, h3, -⟩ := applyChain_geo muts q
  rw [nearbyOk, nearbyOk, h1, h2, h3]

/-- Every promotion update of the hotspot pass carries the preservation
TTL `now + PRESERVE_HOTSPOT_DAYS` days and a numeric `lastSeen` at or
above the window cutoff, provided the snapshot's members have numeric
in-window timestamps and numeric-or-absent `lastSeen`. -/
theorem clusterMuts_promote_shape (dist : Dist) (gk : GridKey) (now : Int)
    (docs : List (String × CamData))
    (hdocs : ∀ o ∈ docs, (∃ T, o.2.timestamp = .num T ∧ windowCutoff now ≤ T)
      ∧ (o.2.lastSeen = .missing ∨ ∃ z, o.2.lastSeen = .num z))
    (hcut : 0 < windowCutoff now) :
    ∀ m ∈ clusterMutsOf dist gk now docs, ∀ (i : String) (c x : Int) (l : TVal),
      m = .promote i c x l →
      x = now + PRESERVE_HOTSPOT_DAYS * MS_DAY
      ∧ ∃ n0, l = .num n0 ∧ windowCutoff now ≤ n0 := by
  intro m hm i c x l hmeq
  rw [clusterMutsOf, List.mem_flatten] at hm
  obtain ⟨ms, hms, hmm⟩ := hm
  obtain ⟨e, he, rfl⟩ := List.mem_map.mp hms
  rw [seedMuts] at hmm
  split at hmm
  · cases hmm
  · split at hmm
    · cases hmm
    · split at hmm
      · rcases List.mem_append.mp hmm with h1 | h1
        · obtain ⟨n, hn, hpn⟩ := List.mem_filterMap.mp h1
          rw [promoteMut] at hpn
          split at hpn
          · cases hpn
          · injection hpn with hpn
            rw [hmeq] at hpn
            injection hpn with i1 i2 i3 i4
            obtain ⟨hnd, -⟩ := List.mem_filter.mp hn
            obtain ⟨⟨T, hT, hTc⟩, hls⟩ := hdocs n hnd
            refine ⟨i3.symm, ?_⟩
            rw [← i4]
            have hts : jsOr n.2.timestamp (.num 0) = .num T := by
              rw [hT, jsOr, if_pos (by simp [TVal.truthy]; omega)]
            rcases hls with h | ⟨z, hz⟩
            · rw [h, hts]
              exact ⟨max 0 T, rfl, by omega⟩
            · rw [hz, hts]
              by_cases hz0 : z = 0
              · subst hz0
                rw [show jsOr (TVal.num 0) (TVal.num 0) = TVal.num 0 from by
                  rw [jsOr, if_neg (by simp [TVal.truthy])]]
                exact ⟨max 0 T, rfl, by omega⟩
              · rw [show jsOr (TVal.num z) (TVal.num 0) = TVal.num z from by
                  rw [jsOr, if_pos (by simp [TVal.truthy]; omega)]]
                exact ⟨max z T, rfl, by omega⟩
        · rw [List.mem_singleton] at h1
          rw [h1, summaryMut] at hmeq
          cases hmeq
      · cases hmm

/-- C2 amended: with the auxiliary raw-report source empty, a window
that has already elapsed (`now` past the lookback span), a distance
oracle that is zero on identical coordinates, and a store of well-formed
records (`wellFormedRec`: positive-numeric-or-absent timestamps,
numeric-or-absent lastSeen, no `r_`-prefixed ids), running the full
pass twice with the same `now` produces zero mutations on the second
run. -/
theorem run_twice_no_mutations (dist : Dist) (gk : GridKey) (now : Int)
    (cams : List (String × CamData)) (sums : List (String × Mut))
    (hnow : HOTSPOT_WINDOW_DAYS * MS_DAY < now)
    (hdist0 : ∀ la lo, dist la lo la lo = 0)
    (hwf : ∀ p ∈ cams, wellFormedRec p = true) :
    (runPass dist gk now (runPass dist gk now cams [] sums).1 []
      (runPass dist gk now cams [] sums).2.1).2.2 = [] := by
  have hwd : (HOTSPOT_WINDOW_DAYS * MS_DAY : Int) = 864000000 := by decide
  rw [hwd] at hnow
  have hn0 : 0 < now := by omega
  have hcut : 0 < windowCutoff now := by
    rw [windowCutoff, hwd]
    omega
  have hmd : MS_DAY = 86400000 := by decide
  have hpd : PRESERVE_HOTSPOT_DAYS = (10 : Int) := rfl
  have hSmem : ∀ q ∈ survivorsOf now cams, ∃ p ∈ cams, q.1 = p.1
      ∧ q.2 = (lifecycleStep now (windowCutoff now) p.1 p.2).1
      ∧ (lifecycleStep now (windowCutoff now) p.1 p.2).2.1 = false := by
    intro q hq
    rw [survivorsOf] at hq
    obtain ⟨a, ha, rfl⟩ := List.mem_map.mp hq
    obtain ⟨ha1, ha2⟩ := List.mem_filter.mp ha
    rw [steppedOf] at ha1
    obtain ⟨p, hp, rfl⟩ := List.mem_map.mp ha1
    exact ⟨p, hp, rfl, rfl, by simpa using ha2⟩
  have hD1docs : ∀ o ∈ mobileDocsOf now cams [],
      (∃ T, o.2.timestamp = .num T ∧ windowCutoff now ≤ T)
      ∧ (o.2.lastSeen = .missing ∨ ∃ z, o.2.lastSeen = .num z)
      ∧ strStartsWith o.1 "r_" = false := by
    intro o ho
    rw [mobileDocsOf_nil] at ho
    obtain ⟨hoin, hof⟩ := List.mem_filter.mp ho
    rw [inMemOf] at hoin
    obtain ⟨a, ha, rfl⟩ := List.mem_map.mp hoin
    rw [steppedOf] at ha
    obtain ⟨p, hp, rfl⟩ := List.mem_map.mp ha
    obtain ⟨hwts, hwls, hpre⟩ := wellFormedRec_spec (hwf p hp)
    have hnd : (lifecycleStep now (windowCutoff now) p.1 p.2).2.1 = false := by
      cases hb : (lifecycleStep now (windowCutoff now) p.1 p.2).2.1
      · rfl
      · have hff := deleted_fails_filter hb
        rw [hff] at hof
        cases hof
    obtain ⟨⟨T, hT, hT0⟩, -, -, -, hmob⟩ :=
      step_output_facts now (windowCutoff now) p.1 p.2 hn0 hwts hwls hnd
    rw [camMobileFilter] at hof
    simp only [Bool.and_eq_true, decide_eq_true_eq] at hof
    obtain ⟨⟨heff, -⟩, hge⟩ := hof
    have hTc : windowCutoff now ≤ T := by
      rw [hT] at hge
      simpa [jsGE, TVal.toNumber] using hge
    have hnotfix : ¬ effType (lifecycleStep now (windowCutoff now) p.1 p.2).1 =
        "fixed_camera" := by
      rw [heff]
      decide
    obtain ⟨⟨z, hz, -⟩, -⟩ := hmob hnotfix
    exact ⟨⟨T, hT, hTc⟩, Or.inr ⟨z, hz⟩, hpre⟩
  have hfold1 : (runPass dist gk now cams [] sums).1 =
      (survivorsOf now cams).map
        (applyChain (clusterMutsOf dist gk now (mobileDocsOf now cams []))) := by
    rw [runPass_eq]
    dsimp only
    rw [foldl_applyPromote_eq_map]
  have hshape := clusterMuts_promote_shape dist gk now (mobileDocsOf now cams [])
    (fun o ho => ⟨(hD1docs o ho).1, (hD1docs o ho).2.1⟩) hcut
  have hsilent : ∀ r ∈ (runPass dist gk now cams [] sums).1,
      lifecycleStep now (windowCutoff now) r.1 r.2 = (r.2, false, []) := by
    intro r hr
    rw [hfold1] at hr
    obtain ⟨q, hq, rfl⟩ := List.mem_map.mp hr
    obtain ⟨p, hp, hq1, hq2, hnd⟩ := hSmem q hq
    obtain ⟨hwts, hwls, hpre⟩ := wellFormedRec_spec (hwf p hp)
    by_cases hex : ∃ c e l, Mut.promote q.1 c e l ∈
        clusterMutsOf dist gk now (mobileDocsOf now cams [])
    · obtain ⟨c, e, l, hm, hres⟩ := applyChain_of_promoted _ q hex
      obtain ⟨he, n0, hl, hn0c⟩ := hshape _ hm q.1 c e l rfl
      subst he
      subst hl
      rw [hres]
      dsimp only
      obtain ⟨⟨T, hT, hT0⟩, -, -, hfix, -⟩ :=
        step_output_facts now (windowCutoff now) p.1 p.2 hn0 hwts hwls hnd
      rw [← hq2] at hT hfix
      by_cases hty : effType q.2 = "fixed_camera"
      · obtain ⟨hhot, hcond⟩ := hfix hty
        apply fixed_silent_criteria
        · exact hty
        · exact ⟨T, hT, by omega⟩
        · exact Option.some_ne_none c
        · rfl
        · exact hcond
      · apply mobile_silent_criteria
        · exact hty
        · exact ⟨T, hT, by omega⟩
        · exact Option.some_ne_none c
        · show (TVal.num (now + PRESERVE_HOTSPOT_DAYS * MS_DAY)).truthy = true
          simp only [TVal.truthy, bne_iff_ne, ne_eq, decide_eq_true_eq, hpd, hmd]
          omega
        · show (TVal.num n0).truthy = true
          simp only [TVal.truthy, bne_iff_ne, ne_eq, decide_eq_true_eq]
          omega
        · intro hfalse _
          exact absurd hfalse (by simp)
        · intro hfalse _
          exact absurd hfalse (by simp)
        · intro _
          show jsLT (TVal.num (now + PRESERVE_HOTSPOT_DAYS * MS_DAY)).toNumber now = false
          simp only [TVal.toNumber, jsLT, decide_eq_false_iff_not, hpd, hmd]
          omega
    · have heq : applyChain (clusterMutsOf dist gk now (mobileDocsOf now cams [])) q = q :=
        applyChain_of_no_promote _ q fun c e l hm => hex ⟨c, e, l, hm⟩
      rw [heq, hq1, hq2]
      exact step_output_silent now (windowCutoff now) p.1 p.2 hn0 hwts hwls hnd
  have hstep2 : steppedOf now (runPass dist gk now cams [] sums).1 =
      ((runPass dist gk now cams [] sums).1).map
        (fun r => (r.1, r.2, false, ([] : List Mut))) := by
    rw [steppedOf]
    exact List.map_congr_left fun r hr => by rw [hsilent r hr]
  have hlife2 : lifeMutsOf now (runPass dist gk now cams [] sums).1 = [] := by
    rw [lifeMutsOf, hstep2, List.map_map]
    have hcomp : ((fun (p : String × CamData × Bool × List Mut) => p.2.2.2) ∘
        (fun (r : String × CamData) => (r.1, r.2, false, ([] : List Mut)))) =
        fun _ => ([] : List Mut) := funext fun r => rfl
    rw [hcomp]
    simp
  have hinmem2 : inMemOf now (runPass dist gk now cams [] sums).1 =
      (runPass dist gk now cams [] sums).1 := by
    rw [inMemOf, hstep2, List.map_map]
    have hcomp : ((fun (p : String × CamData × Bool × List Mut) => (p.1, p.2.1)) ∘
        (fun (r : String × CamData) => (r.1, r.2, false, ([] : List Mut)))) = id :=
      funext fun r => rfl
    rw [hcomp, List.map_id]
  have hSfilter : (survivorsOf now cams).filter
      (fun c => camMobileFilter (windowCutoff now) c.2) = mobileDocsOf now cams [] := by
    rw [mobileDocsOf_nil, survivorsOf, inMemOf, List.filter_map, List.filter_map,
      List.filter_filter]
    congr 1
    refine List.filter_congr ?_
    intro a ha
    rw [steppedOf] at ha
    obtain ⟨p, hp, rfl⟩ := List.mem_map.mp ha
    cases hdel : (lifecycleStep now (windowCutoff now) p.1 p.2).2.1
    · simp [hdel]
    · have hff := deleted_fails_filter hdel
      simp [Function.comp, hdel, hff]
  have hD2 : mobileDocsOf now (runPass dist gk now cams [] sums).1 [] =
      (mobileDocsOf now cams []).map
        (applyChain (clusterMutsOf dist gk now (mobileDocsOf now cams []))) := by
    rw [mobileDocsOf_nil, hinmem2, hfold1, List.filter_map]
    rw [show ((fun c => camMobileFilter (windowCutoff now) c.2) ∘
        (applyChain (clusterMutsOf dist gk now (mobileDocsOf now cams [])))) =
        (fun c => camMobileFilter (windowCutoff now) c.2) from funext fun q =>
          camMobileFilter_applyChain (windowCutoff now) _ q]
    rw [hSfilter]
  have hseed2 : ∀ e ∈ (mobileDocsOf now cams []).map
      (applyChain (clusterMutsOf dist gk now (mobileDocsOf now cams []))),
      seedMuts dist gk now ((mobileDocsOf now cams []).map
        (applyChain (clusterMutsOf dist gk now (mobileDocsOf now cams [])))) e = [] := by
    intro e he
    obtain ⟨e1, he1, rfl⟩ := List.mem_map.mp he
    by_cases hex : ∃ c x l, Mut.promote e1.1 c x l ∈
        clusterMutsOf dist gk now (mobileDocsOf now cams [])
    · have hhot := applyChain_promoted
        (clusterMutsOf dist gk now (mobileDocsOf now cams [])) e1 hex
      simp [seedMuts, hhot]
    · have heq : applyChain (clusterMutsOf dist gk now (mobileDocsOf now cams [])) e1 = e1 :=
        applyChain_of_no_promote _ e1 fun c x l hm => hex ⟨c, x, l, hm⟩
      rw [heq]
      simp only [seedMuts]
      split_ifs with h1 h2 h3
      · rfl
      · rfl
      · exfalso
        apply hex
        have hok : nearbyOk e1.2 = true := by
          rw [nearbyOk]
          simpa using h1
        have hlen : nearbyOf dist ((mobileDocsOf now cams []).map
            (applyChain (clusterMutsOf dist gk now (mobileDocsOf now cams [])))) e1.2 =
            (nearbyOf dist (mobileDocsOf now cams []) e1.2).map
              (applyChain (clusterMutsOf dist gk now (mobileDocsOf now cams []))) := by
          rw [nearbyOf, nearbyOf, List.filter_map]
          congr 1
          refine List.filter_congr ?_
          intro o ho
          obtain ⟨g1, g2, -, -⟩ :=
            applyChain_geo (clusterMutsOf dist gk now (mobileDocsOf now cams [])) o
          rw [Function.comp]
          rw [nearbyOk_applyChain, g1, g2]
        have h3a : HOTSPOT_THRESHOLD ≤
            (nearbyOf dist (mobileDocsOf now cams []) e1.2).length := by
          rw [hlen, List.length_map] at h3
          exact h3
        have hself : e1 ∈ nearbyOf dist (mobileDocsOf now cams []) e1.2 := by
          rw [nearbyOf, List.mem_filter]
          refine ⟨he1, ?_⟩
          rw [hok, hdist0]
          simp [HOTSPOT_RADIUS_M]
        obtain ⟨-, -, hpre1⟩ := hD1docs e1 he1
        refine ⟨min 100 (jsOrInt e1.2.confidence 70 + 20),
          now + PRESERVE_HOTSPOT_DAYS * MS_DAY,
          mathMax (jsOr e1.2.lastSeen (.num 0)) (jsOr e1.2.timestamp (.num 0)), ?_⟩
        rw [clusterMutsOf, List.mem_flatten]
        refine ⟨seedMuts dist gk now (mobileDocsOf now cams []) e1,
          List.mem_map_of_mem _ he1, ?_⟩
        simp only [seedMuts]
        rw [if_neg (by simpa using h1), if_neg h2, if_pos h3a]
        refine List.mem_append_left _ (List.mem_filterMap.mpr ⟨e1, hself, ?_⟩)
        rw [promoteMut, if_neg (by rw [hpre1]; exact Bool.false_ne_true)]
      · rfl
  have hcm2 : clusterMutsOf dist gk now
      (mobileDocsOf now (runPass dist gk now cams [] sums).1 []) = [] := by
    rw [hD2, clusterMutsOf, List.flatten_eq_nil_iff]
    intro l hl
    obtain ⟨e, he, rfl⟩ := List.mem_map.mp hl
    exact hseed2 e he
  rw [runPass_eq]
  dsimp only
  rw [hlife2, hcm2]
  rfl

/-- The confidence written by a promotion update, if the mutation is
one. -/
def promoteConf : Mut → Option Int
  | .promote _ c _ _ => some c
  | _ => none

/-- The confidences of all promotion updates in a mutation list, in
order. -/
def promoteConfs (ms : List Mut) : List Int := ms.filterMap promoteConf

/-- A store of one well-formed promotable mobile record. -/
def idemCams : List (String × CamData) := [("c1", clusterRecord 1)]

/-- Two raw reports at the same spot as the stored record; the reports
collection is read on every run and never written by the job. -/
def idemReports : List (String × CamData) :=
  [("p1", clusterRecord 1), ("p2", clusterRecord 1)]

/-- First run over the one-record store with the two raw reports. -/
def idemRun1 : List (String × CamData) × List (String × Mut) × List Mut :=
  runPass constDist latKey 1000000000000 idemCams idemReports []

/-- Second run: same `now`, same reports, store and summaries as the
first run left them. -/
def idemRun2 : List (String × CamData) × List (String × Mut) × List Mut :=
  runPass constDist latKey 1000000000000 idemRun1.1 idemReports idemRun1.2.1

/-- C2 counterexample: with one stored record and two raw reports at one
spot, the first run promotes the record (three seeds, confidence
`min(100, 70+20) = 90` each time); the second run, against the store the
first run produced and the unchanged reports collection, still emits
mutations — the report-seeded clusters re-fire and write confidence
`min(100, 90+20) = 100` plus fresh summary upserts — so the pass is not
idempotent. -/
theorem run_twice_counterexample :
    promoteConfs idemRun1.2.2 = [90, 90, 90]
    ∧ promoteConfs idemRun2.2.2 = [100, 100]
    ∧ ¬ idemRun2.2.2 = [] := by
  refine ⟨?_, ?_, ?_⟩ <;> decide

/-- Witness for the amended run-twice theorem at a concrete store. -/
theorem run_twice_no_mutations_witness :
    (HOTSPOT_WINDOW_DAYS * MS_DAY < 1000000000000)
    ∧ (runPass constDist latKey 1000000000000
        (runPass constDist latKey 1000000000000 idemCams [] []).1 []
        (runPass constDist latKey 1000000000000 idemCams [] []).2.1).2.2 = [] :=
  ⟨by decide, run_twice_no_mutations constDist latKey 1000000000000 idemCams []
    (by decide) (fun la lo => rfl) (by decide)⟩

end Cleanup
